import Mathlib

/-!
# Verification of the operation codec (`src/operation.js`)

A shallow embedding of the `Operation` class of the repository: the ten
operation constructors, the universal decoder `operationToObject`, amount
validation (`isValidAmount`) and the amount/price scaling helpers
(`_toXDRAmount`, `_fromXDRAmount`, `_toXDRPrice`, `_fromXDRPrice`).

The source manipulates decimal quantities through the `bignumber.js`
arbitrary-precision library.  A finite BigNumber value is a decimal float: a
sign, a base-10 coefficient and a decimal exponent, with the coefficient kept
free of trailing zero digits.  We embed that data model directly as a pair
`c × 10^e` over `ℤ` (`Dec`), normalised exactly as the library normalises
(trailing zeros stripped from the coefficient, zero stored with exponent 0),
together with the `NaN` / `±Infinity` points (`BigNum`).  All executable
arithmetic stays on `ℤ`/`ℕ`; the exact rational value `Dec.toRat` is used in
specification statements.

External collaborators that are part of the repository but whose sources were
not provided (`src/account.js`, `src/keypair.js`, `src/strkey.js`,
`src/asset.js`, `src/util/continued_fraction.js` and the generated XDR layer)
are modelled from the spec where needed; each such definition carries a
`Modelled from the spec:` comment.
-/

namespace StellarBase

/-- A finite `bignumber.js` value: the exact decimal `c × 10^e`.  The library
stores a sign, base-10 coefficient digits and a decimal exponent; `c` carries
the sign and coefficient, `e` the position of the least significant stored
digit. -/
structure Dec where
  c : ℤ
  e : ℤ
deriving DecidableEq, Repr

/-- Strip trailing zero digits from a coefficient, moving them into the
exponent, as `bignumber.js` does on construction.  Structural fuel recursion
(fuel `≥ |c|` always suffices) so the kernel can evaluate it. -/
def stripZerosAux : ℕ → ℤ → ℤ → ℤ × ℤ
  | 0, c, e => (c, e)
  | fuel + 1, c, e =>
    if c ≠ 0 ∧ c % 10 = 0 then stripZerosAux fuel (c / 10) (e + 1) else (c, e)

/-- Canonical form of a decimal float: zero is `0 × 10^0`, otherwise the
coefficient is not divisible by 10. -/
def Dec.norm (x : Dec) : Dec :=
  if x.c = 0 then ⟨0, 0⟩
  else
    let p := stripZerosAux x.c.natAbs x.c x.e
    ⟨p.1, p.2⟩

/-- The exact rational value of a decimal float. -/
def Dec.toRat (d : Dec) : ℚ :=
  if 0 ≤ d.e then ((d.c * (10 : ℤ) ^ d.e.toNat : ℤ) : ℚ)
  else mkRat d.c ((10 : ℕ) ^ (-d.e).toNat)

/-- A `bignumber.js` value: `NaN`, `±Infinity`, a finite decimal float, or
the negative zero `-0` (the library stores the sign separately from the
coefficient, so a zero keeps a minus sign: `negZero` is that state, with
`fin ⟨0, 0⟩` the positive zero). -/
inductive BigNum where
  | nan
  | posInf
  | negInf
  | fin (d : Dec)
  | negZero
deriving DecidableEq, Repr

/-! ## The decimal-string parser

`bignumber.js` (v2, as used by the source) first matches a string against
the plain grammar `-?(\d+(\.\d*)?|\.\d+)([eE][+-]?\d+)?`, keeping the
stored sign — so `"-0"` is a negative zero.  Anything else goes through
`parseNumeric`, which strips surrounding whitespace and a leading plus sign,
recognises the `Infinity`/`NaN` literals, re-parses `0x`/`0o`/`0b` radix
prefixes in the indicated base, and otherwise raises the «not a number»
error, which every caller in the source treats as invalid input. -/

/-- Is `c` one of the ten decimal digit characters? -/
def isDigitC (c : Char) : Bool := 48 ≤ c.toNat ∧ c.toNat ≤ 57

/-- Numeric value of a decimal digit character. -/
def digitVal (c : Char) : ℕ := c.toNat - 48

/-- Fold a most-significant-first digit string into a natural number. -/
def natOfDigits (l : List Char) : ℕ := l.foldl (fun a c => 10 * a + digitVal c) 0

/-- Split a character list at the first character satisfying `p`; `none` when
no character does. -/
def splitFirstP (p : Char → Bool) : List Char → Option (List Char × List Char)
  | [] => none
  | c :: t =>
    if p c then some ([], t)
    else
      match splitFirstP p t with
      | some (l, r) => some (c :: l, r)
      | none => none

/-- Mantissa of a decimal literal: `\d+(\.\d*)?|\.\d+`, as an unsigned
decimal float. -/
def parseMantissa (l : List Char) : Option Dec :=
  match splitFirstP (fun c => c = '.') l with
  | none =>
    if l ≠ [] ∧ l.all isDigitC then some ⟨natOfDigits l, 0⟩ else none
  | some (ip, fp) =>
    if (ip ≠ [] ∨ fp ≠ []) ∧ ip.all isDigitC ∧ fp.all isDigitC then
      some ⟨natOfDigits (ip ++ fp), -(fp.length : ℤ)⟩
    else none

/-- A signed exponent: `[+-]?\d+`. -/
def parseSignedInt (l : List Char) : Option ℤ :=
  match l with
  | '-' :: t => if t ≠ [] ∧ t.all isDigitC then some (-(natOfDigits t : ℤ)) else none
  | '+' :: t => if t ≠ [] ∧ t.all isDigitC then some ((natOfDigits t : ℤ)) else none
  | t => if t ≠ [] ∧ t.all isDigitC then some ((natOfDigits t : ℤ)) else none

/-- Is this character an exponent marker? -/
def expChar (c : Char) : Bool := c = 'e' ∨ c = 'E'

/-- An unsigned decimal literal with optional exponent part. -/
def parseDecCore (l : List Char) : Option Dec :=
  match splitFirstP expChar l with
  | none => parseMantissa l
  | some (m, ex) => do
    let dm ← parseMantissa m
    let ev ← parseSignedInt ex
    pure ⟨dm.c, dm.e + ev⟩

/-- Parse a character list as a `bignumber.js` value. -/
def parseBigNumList (l : List Char) : Option BigNum :=
  if l = "Infinity".data then some .posInf
  else if l = "-Infinity".data then some .negInf
  else if l = "NaN".data then some .nan
  else
    match l with
    | '-' :: t => (parseDecCore t).map fun d =>
        if d.c = 0 then .negZero else .fin (Dec.norm ⟨-d.c, d.e⟩)
    | t => (parseDecCore t).map fun d => .fin (Dec.norm d)

/-- The JavaScript whitespace characters the regex class `\s` matches. -/
def isJsWs (c : Char) : Bool :=
  c.toNat = 9 ∨ c.toNat = 10 ∨ c.toNat = 11 ∨ c.toNat = 12 ∨ c.toNat = 13 ∨
  c.toNat = 32 ∨ c.toNat = 160 ∨ c.toNat = 5760 ∨
  (8192 ≤ c.toNat ∧ c.toNat ≤ 8202) ∨ c.toNat = 8232 ∨ c.toNat = 8233 ∨
  c.toNat = 8239 ∨ c.toNat = 8287 ∨ c.toNat = 12288 ∨ c.toNat = 65279

/-- A regex `\w` word character. -/
def isWordChar (c : Char) : Bool :=
  (48 ≤ c.toNat ∧ c.toNat ≤ 57) ∨ (97 ≤ c.toNat ∧ c.toNat ≤ 122) ∨
  (65 ≤ c.toNat ∧ c.toNat ≤ 90) ∨ c = '_'

/-- The regex class `[\w.]`. -/
def isWordOrDot (c : Char) : Bool := isWordChar c ∨ c = '.'

/-- The global replace of `^\s*\+(?=[\w.])|^\s+|\s+$` by nothing: strip
leading whitespace together with a plus sign when a word character or dot
follows, or plain leading whitespace, and strip trailing whitespace. -/
def stripWsPlus (l : List Char) : List Char :=
  let ld := l.dropWhile isJsWs
  let head :=
    match ld with
    | '+' :: c :: t => if isWordOrDot c then c :: t else ld
    | _ => ld
  (head.reverse.dropWhile isJsWs).reverse

/-- Value of a character in the digit alphabet `0–9a–z`, case-insensitive. -/
def baseDigitVal (c : Char) : Option ℕ :=
  if 48 ≤ c.toNat ∧ c.toNat ≤ 57 then some (c.toNat - 48)
  else if 97 ≤ c.toNat ∧ c.toNat ≤ 122 then some (c.toNat - 87)
  else if 65 ≤ c.toNat ∧ c.toNat ≤ 90 then some (c.toNat - 55)
  else none

/-- Is `c` a digit of base `b`? -/
def isBaseDigit (b : ℕ) (c : Char) : Bool :=
  match baseDigitVal c with
  | some v => v < b
  | none => false

/-- Fold most-significant-first base-`b` digit characters into a natural
number. -/
def natOfBaseDigits (b : ℕ) (l : List Char) : ℕ :=
  l.foldl (fun a c => b * a + (baseDigitVal c).getD 0) 0

/-- `a / b` rounded to an integer, ties away from zero (`ROUND_HALF_UP`),
for `b > 0`. -/
def halfUpDiv (a b : ℤ) : ℤ :=
  if 0 ≤ a then Int.ediv (2 * a + b) (2 * b)
  else -(Int.ediv (2 * (-a) + b) (2 * b))

/-- The unsigned part of `new BigNumber(str, base)` for the radix branches:
the magnitude must match `A+(\.A+)?` over the base alphabet
(case-insensitive); a fractional part is divided out at the library's
`DECIMAL_PLACES = 20` with `ROUND_HALF_UP`; a zero magnitude under a minus
sign keeps the stored minus sign. -/
def parseBaseListCore (b : ℕ) (neg : Bool) (t : List Char) : Option BigNum :=
  match splitFirstP (fun c => c = '.') t with
  | none =>
    if t ≠ [] ∧ t.all (isBaseDigit b) then
      let n := natOfBaseDigits b t
      if neg ∧ n = 0 then some .negZero
      else some (.fin (Dec.norm ⟨if neg then -(n : ℤ) else (n : ℤ), 0⟩))
    else none
  | some (ip, fp) =>
    if ip ≠ [] ∧ fp ≠ [] ∧ ip.all (isBaseDigit b) ∧ fp.all (isBaseDigit b) then
      let n := natOfBaseDigits b (ip ++ fp)
      let c0 := halfUpDiv ((n : ℤ) * 10 ^ 20) ((b : ℤ) ^ fp.length)
      if neg ∧ c0 = 0 then some .negZero
      else some (.fin (Dec.norm ⟨if neg then -c0 else c0, -20⟩))
    else none

/-- `new BigNumber(str, base)` for a radix branch: regex
`^-?A+(\.A+)?$` over the base alphabet, with the sign taken from a leading
minus. -/
def parseBaseList (b : ℕ) (s : List Char) : Option BigNum :=
  match s with
  | '-' :: t => parseBaseListCore b true t
  | t => parseBaseListCore b false t

/-- Split the radix prefix `^(-?)0([xbo])` (case-insensitive) when the
remainder satisfies the lookahead `\w[\w.]*$`: the stored sign, the base
and the remainder. -/
def basePrefixSplit (t : List Char) : Option (Bool × ℕ × List Char) :=
  let p := match t with
    | '-' :: t2 => (true, t2)
    | t2 => (false, t2)
  match p.2 with
  | '0' :: pc :: rest =>
    let pb := if pc = 'x' ∨ pc = 'X' then some 16
      else if pc = 'b' ∨ pc = 'B' then some 2
      else if pc = 'o' ∨ pc = 'O' then some 8
      else none
    match pb, rest with
    | some base, c :: _ =>
      if isWordChar c ∧ rest.all isWordOrDot then some (p.1, base, rest)
      else none
    | _, _ => none
  | _ => none

/-- With a base given, `parseNumeric` repairs `'1.'` to `'1'` (regex
`^([^.]+)\.$`) and `'.1'` to `'0.1'` (regex `^\.([^.]+)$`). -/
def fixDots (l : List Char) : List Char :=
  let l1 :=
    match l.getLast? with
    | some '.' =>
      if l.dropLast ≠ [] ∧ (l.dropLast).all (fun c => c != '.') then l.dropLast
      else l
    | _ => l
  match l1 with
  | '.' :: rest =>
    if rest ≠ [] ∧ rest.all (fun c => c != '.') then '0' :: l1 else l1
  | _ => l1

/-- The outcome of one `parseNumeric` pass: a final value (or the «not a
number» error, `none`) or a rewritten string handed back to the
constructor. -/
inductive NumericStep where
  | done (r : Option BigNum)
  | reparse (s : List Char) (b : Option ℕ)
deriving Repr

/-- One pass of `parseNumeric`: strip whitespace and a leading plus, test
the exact-case `^-?(Infinity|NaN)$` literals, strip a radix prefix (kept
when it contradicts a base already given), with a base given repair a
leading or trailing dot, and re-enter the constructor whenever the string
changed. -/
def parseNumericStep (s : List Char) (b : Option ℕ) : NumericStep :=
  let t := stripWsPlus s
  if t = "Infinity".data then .done (some .posInf)
  else if t = "-Infinity".data then .done (some .negInf)
  else if t = "NaN".data ∨ t = "-NaN".data then .done (some .nan)
  else
    let u :=
      match basePrefixSplit t, b with
      | some (neg, base, rest), none =>
        ((if neg then '-' :: rest else rest), some base)
      | some (neg, base, rest), some bb =>
        if bb = base then ((if neg then '-' :: rest else rest), some bb)
        else (t, some bb)
      | none, _ => (t, b)
    let u2 := match b with
      | some _ => fixDots u.1
      | none => u.1
    if u2 ≠ s then .reparse u2 u.2 else .done none

/-- The `BigNumber` constructor on a string: the plain decimal grammar
first (the `isNumeric` test), the base grammar instead when a radix is
given, falling back to `parseNumeric`, whose re-parses re-enter the
constructor on a strictly rewritten string (the fuel bounds that recursion;
it never exceeds a few steps). -/
def bigNumCtor : ℕ → List Char → Option ℕ → Option BigNum
  | 0, _, _ => none
  | fuel + 1, s, b =>
    match (match b with
      | none => parseBigNumList s
      | some bb => parseBaseList bb s) with
    | some v => some v
    | none =>
      match parseNumericStep s b with
      | .done r => r
      | .reparse u pb => bigNumCtor fuel u pb

/-- `new BigNumber(string)`: the value, or `none` when the constructor throws
«not a number». -/
def parseBigNum (s : String) : Option BigNum := bigNumCtor 8 s.data none

/-! ## BigNumber operations used by the source -/

/-- `BigNumber#isZero`. -/
def BigNum.isZero : BigNum → Bool
  | .fin d => d.c = 0
  | .negZero => true
  | _ => false

/-- `BigNumber#isNegative`: the stored sign is minus — so true of `-0` —
(`NaN` has a null sign, hence `false`). -/
def BigNum.isNegative : BigNum → Bool
  | .fin d => d.c < 0
  | .negInf => true
  | .negZero => true
  | _ => false

/-- `BigNumber#times` with an integer multiplier (the source multiplies by the
scale constant `ONE = 10000000`).  The product's stored sign is the product
of the stored signs, so a zero-valued product whose factor signs differ is a
negative zero. -/
def BigNum.times (b : BigNum) (k : ℤ) : BigNum :=
  match b with
  | .fin d =>
    if d.c * k = 0 ∧ ((d.c < 0) ↔ 0 ≤ k) then .negZero
    else .fin (Dec.norm ⟨d.c * k, d.e⟩)
  | .negZero => if k < 0 then .fin ⟨0, 0⟩ else .negZero
  | .nan => .nan
  | .posInf => if k < 0 then .negInf else if k = 0 then .nan else .posInf
  | .negInf => if k < 0 then .posInf else if k = 0 then .nan else .negInf

/-- Value comparison of two finite decimal floats: `a > b`. -/
def Dec.gtD (a b : Dec) : Bool :=
  if b.e ≤ a.e then b.c < a.c * (10 : ℤ) ^ (a.e - b.e).toNat
  else b.c * (10 : ℤ) ^ (b.e - a.e).toNat < a.c

/-- `BigNumber#greaterThan`: value comparison, where `-0` equals `0` (any
comparison involving `NaN` is `false`). -/
def BigNum.greaterThan : BigNum → BigNum → Bool
  | .fin a, .fin b => Dec.gtD a b
  | .posInf, .fin _ => true
  | .posInf, .negInf => true
  | .posInf, .negZero => true
  | .negInf, _ => false
  | .fin _, .negInf => true
  | .fin a, .negZero => Dec.gtD a ⟨0, 0⟩
  | .negZero, .fin b => Dec.gtD ⟨0, 0⟩ b
  | .negZero, .negInf => true
  | _, _ => false

/-- `BigNumber#decimalPlaces`: the number of stored fraction digits of a
finite value (`null`, i.e. `none`, for `NaN` and `±Infinity`). -/
def BigNum.decimalPlaces : BigNum → Option ℕ
  | .fin d => some (if d.e < 0 then (-d.e).toNat else 0)
  | .negZero => some 0
  | _ => none

/-- `BigNumber#isFinite`. -/
def BigNum.isFinite : BigNum → Bool
  | .fin _ => true
  | .negZero => true
  | _ => false

/-- `BigNumber#isNaN`. -/
def BigNum.isNan : BigNum → Bool
  | .nan => true
  | _ => false

/-! ## JavaScript values at the codec's boundary

The source is untyped JavaScript: option fields may hold strings, numbers,
`BigNumber` instances, `null`, … .  `isValidAmount` starts with a lodash
`isString` test, so the embedding keeps the dynamic typing of amount-like
fields.  (JavaScript numbers are binary floats; the codec only ever
stringifies them, and every claim exercises integral values, so a number is
carried as its exact decimal value.) -/

/-- A JavaScript value as it can appear in an options record. -/
inductive JSVal where
  | str (s : String)
  | num (d : Dec)
  | bignum (b : BigNum)
  | jsNull
  | undefined
  | boolean (b : Bool)
deriving DecidableEq, Repr

/-- lodash `isString`. -/
def JSVal.isString : JSVal → Bool
  | .str _ => true
  | _ => false

/-- JavaScript truthiness of an optional value (`undefined`, `null`, `0`,
`NaN`, `false` and the empty string are falsy). -/
def jsTruthy : Option JSVal → Bool
  | none => false
  | some (.str s) => s ≠ ""
  | some (.num d) => d.c ≠ 0
  | some (.bignum _) => true
  | some .jsNull => false
  | some .undefined => false
  | some (.boolean b) => b

/-- The fractional scale factor (7 decimal digits). -/
def ONE : ℤ := 10000000

/-- The amount ceiling: largest signed 64-bit integer. -/
def MAX_INT64 : ℤ := 9223372036854775807

/-- `new BigNumber(MAX_INT64)` as a decimal float (the source round-trips the
constant through a `BigNumber` and back to a string before comparing). -/
def maxInt64Dec : Dec := ⟨MAX_INT64, 0⟩

namespace Operation

/-- `Operation.isValidAmount(value, allowZero)`, line for line: reject
non-strings, unparsable strings, zero (unless allowed), negatives, values
whose 10^7-scaled form exceeds the int64 ceiling, values with more than 7
decimal places, and non-finite / NaN values. -/
def isValidAmount (value : JSVal) (allowZero : Bool := false) : Bool :=
  match value with
  | .str s =>
    match parseBigNum s with
    | none => false
    | some amount =>
      if !allowZero ∧ amount.isZero then false
      else if amount.isNegative then false
      else if (amount.times ONE).greaterThan (.fin maxInt64Dec) then false
      else if (amount.decimalPlaces.getD 0) > 7 then false
      else if !amount.isFinite then false
      else if amount.isNan then false
      else true
  | _ => false

end Operation

/-! ## Rendering decimal values (`BigNumber#toString`)

`bignumber.js` renders a finite value in plain decimal notation unless its
decimal (scientific) exponent is at most `TO_EXP_NEG = -7` or at least
`TO_EXP_POS = 21`, in which case it uses exponential notation such as
`1e-7` or `2.5e+21`. -/

/-- Little-endian base-10 digits of a natural number, by structural fuel
recursion (fuel `≥ n` suffices) so the kernel can evaluate it. -/
def natDigitsAux : ℕ → ℕ → List ℕ
  | 0, _ => []
  | _, 0 => []
  | fuel + 1, n + 1 => (n + 1) % 10 :: natDigitsAux fuel ((n + 1) / 10)

/-- Little-endian base-10 digits of a natural number (`[]` for 0). -/
def natDigits (n : ℕ) : List ℕ := natDigitsAux n n

/-- Most-significant-first digit characters of a natural number
(`[]` for 0). -/
def renderDigits (n : ℕ) : List Char :=
  (natDigits n).reverse.map fun d => Char.ofNat (48 + d)

/-- Most-significant-first digit characters, rendering 0 as `"0"`. -/
def renderNat (n : ℕ) : List Char :=
  if n = 0 then ['0'] else renderDigits n

/-- Plain decimal notation for coefficient digits `ds` and exponent `e`. -/
def plainNotation (ds : List Char) (e : ℤ) : List Char :=
  if 0 ≤ e then ds ++ List.replicate e.toNat '0'
  else
    let m := (-e).toNat
    if m < ds.length then
      ds.take (ds.length - m) ++ '.' :: ds.drop (ds.length - m)
    else
      '0' :: '.' :: List.replicate (m - ds.length) '0' ++ ds

/-- Exponential notation `d[.dd…]e±k` for coefficient digits `ds` and
scientific exponent `sciE`. -/
def expNotation (ds : List Char) (sciE : ℤ) : List Char :=
  (match ds with
    | [] => []
    | h :: t => h :: (if t = [] then [] else '.' :: t)) ++
  'e' :: (if sciE < 0 then '-' else '+') :: renderNat sciE.natAbs

/-- The unsigned part of `BigNumber#toString`: exponential notation when the
scientific exponent reaches `TO_EXP_NEG = -7` or `TO_EXP_POS = 21`, plain
decimal notation otherwise. -/
def decBody (d : Dec) : List Char :=
  let ds := renderDigits d.c.natAbs
  let sciE := d.e + ds.length - 1
  if sciE ≤ -7 ∨ 21 ≤ sciE then expNotation ds sciE
  else plainNotation ds d.e

/-- `BigNumber#toString` on a finite value (which the library keeps
normalised). -/
def Dec.toString (d : Dec) : String :=
  if d.c = 0 then "0"
  else ⟨if d.c < 0 then '-' :: decBody d else decBody d⟩

/-! ## Amount scaling (`_toXDRAmount`, `_fromXDRAmount`) -/

namespace Operation

/-- `Operation._toXDRAmount(value)`:
`Hyper.fromString(new BigNumber(value).mul(ONE).toString())`.  The scaled
value is returned as the exact integer; `none` models the paths on which the
underlying calls throw (non-string input, unparsable string, or a scaled
value that is not an integer — all unreachable once `isValidAmount` has
passed). -/
def toXDRAmount (value : JSVal) : Option ℤ :=
  match value with
  | .str s =>
    match parseBigNum s with
    | some (.fin d) =>
      let amount := Dec.norm ⟨d.c * ONE, d.e⟩
      if 0 ≤ amount.e then some (amount.c * (10 : ℤ) ^ amount.e.toNat) else none
    | some .negZero => some 0
    | _ => none
  | _ => none

/-- `Operation._fromXDRAmount(value)`:
`new BigNumber(value).div(ONE).toString()` — exact unscaling by 10^7 (the
division terminates within the library's 20 decimal places, so no rounding
occurs), rendered back to a decimal string. -/
def fromXDRAmount (value : ℤ) : String :=
  (Dec.norm ⟨value, -7⟩).toString

/-- The decimal value denoted by a string, when it denotes a finite one:
the reading used to compare amount strings «modulo canonical formatting». -/
def decValue (s : String) : Option ℚ :=
  match parseBigNum s with
  | some (.fin d) => some d.toRat
  | some .negZero => some 0
  | _ => none

end Operation

/-! ## Prices -/

/-- An `xdr.Price`: numerator and denominator of the exchange-rate ratio. -/
structure XdrPrice where
  n : ℤ
  d : ℤ
deriving DecidableEq, Repr

/-- A price as supplied in an options record: either an explicit `{n, d}`
object, or a decimal/numeric value (which the source routes through the
continued-fraction approximator).  The `{n, d}` branch is selected by the
JavaScript truthiness test `price.n && price.d`. -/
inductive PriceInput where
  | pair (n d : ℤ)
  | dec (s : String)
deriving DecidableEq, Repr

/-- Largest signed 32-bit integer: the bound on price components. -/
def MAX_INT32 : ℤ := 2147483647

/-- Continued-fraction loop: successive convergents `prev`, `cur` of `x`,
stopping when the expansion is exhausted, when extending would overflow the
32-bit bound, or when the fuel (iteration guard) runs out. -/
def bestRAux : ℕ → ℚ → ℤ × ℤ → ℤ × ℤ → ℤ × ℤ
  | 0, _, _, cur => cur
  | fuel + 1, x, prev, cur =>
    let fr := x - ⌊x⌋
    if fr = 0 then cur
    else
      let x' := 1 / fr
      let a := ⌊x'⌋
      let nxt := (a * cur.1 + prev.1, a * cur.2 + prev.2)
      if MAX_INT32 < nxt.1 ∨ MAX_INT32 < nxt.2 then cur
      else bestRAux fuel x' cur nxt

/-- Modelled from the spec: the Rational Price Approximator `best_r`
(`src/util/continued_fraction.js` is not under `src/`).  Per §4.1 it expands
the input as a continued fraction, maintaining convergent pairs starting from
`(1,0)` and `(⌊x⌋,1)`, stops before the numerator or denominator would leave
signed 32-bit range, and signals an error on degenerate input (zero,
negative, or non-finite) or when no strictly positive in-bounds convergent
exists — never silently returning `0/0` or similar. -/
def best_r (b : BigNum) : Except String (ℤ × ℤ) :=
  match b with
  | .fin d =>
    let x := d.toRat
    if x ≤ 0 then .error "Couldn't find approximation"
    else
      let r := bestRAux 64 x (1, 0) (⌊x⌋, 1)
      if r.1 ≤ 0 ∨ r.2 ≤ 0 then .error "Couldn't find approximation"
      else .ok r
  | _ => .error "Couldn't find approximation"

namespace Operation

/-- `Operation._toXDRPrice(price)`: an explicit `{n, d}` pair (selected by
truthiness of both components) is used verbatim; anything else is parsed as
a decimal and approximated by `best_r`.  Either way the result must then
pass the sign check `n < 0 || d < 0 → "price must be positive"`. -/
def toXDRPrice (price : PriceInput) : Except String XdrPrice := do
  let xdrObject : XdrPrice ←
    match price with
    | .pair n d =>
      if n ≠ 0 ∧ d ≠ 0 then pure ⟨n, d⟩
      else .error "not a number"
    | .dec s =>
      match parseBigNum s with
      | some b => do
        let r ← best_r b
        pure ⟨r.1, r.2⟩
      | none => .error "not a number"
  if xdrObject.n < 0 ∨ xdrObject.d < 0 then .error "price must be positive"
  else pure xdrObject

/-- `Operation._fromXDRPrice(price)`:
`new BigNumber(price.n()).div(price.d()).toString()` — the quotient rounded
half-up to the library's 20 decimal places, rendered as a decimal string. -/
def fromXDRPrice (price : XdrPrice) : String :=
  (Dec.norm ⟨halfUpDiv (price.n * 10 ^ 20) price.d, -20⟩).toString

end Operation

/-! ## External collaborators: accounts and assets

The account-identity codec (`src/account.js`, `src/keypair.js`,
`src/strkey.js`) and the asset value object (`src/asset.js`) are repository
code not provided under `src/`; per §6 of the spec they are opaque
capabilities («encode an account identifier», «encode an asset») whose
encode/decode pair is inverse.  They are modelled as wrappers carrying the
external form, so that decoding renders exactly the checksummed string / the
asset that was supplied. -/

/-- Modelled from the spec: the binary `AccountID` produced by
`Keypair.fromAccountId(address).xdrAccountId()`, carrying the checksummed
external address it decodes back to via `encodeCheck`. -/
structure XdrAccountId where
  addr : String
deriving DecidableEq, Repr

namespace Account

/-- Modelled from the spec: `Account.isValidAccountId(text)`.  The real
checksummed-strkey validator lives in code not provided under `src/`; no
claim depends on which strings are valid, so validity is modelled as the
text being non-empty (the empty string is also JavaScript-falsy, which the
source's truthiness guards already skip). -/
def isValidAccountId (s : String) : Bool := s ≠ ""

end Account

/-- Modelled from the spec: `Keypair.fromAccountId(address).xdrAccountId()`. -/
def keypairXdrAccountId (address : String) : XdrAccountId := ⟨address⟩

/-- Modelled from the spec: the decoder's
`encodeCheck("accountId", accountId.ed25519())` (named `accountIdtoAddress`
in the source), inverse of `keypairXdrAccountId`. -/
def accountIdtoAddress (accountId : XdrAccountId) : String := accountId.addr

/-- Modelled from the spec: an `Asset` value object, treated as opaque. -/
structure Asset where
  code : String
  issuer : String
deriving DecidableEq, Repr

/-- The asset's binary form. -/
structure XdrAsset where
  value : Asset
deriving DecidableEq, Repr

/-- Modelled from the spec: `asset.toXdrObject()`. -/
def Asset.toXdrObject (a : Asset) : XdrAsset := ⟨a⟩

/-- Modelled from the spec: `Asset.fromOperation(xdrAsset)`, inverse of
`Asset.toXdrObject`. -/
def Asset.fromOperation (x : XdrAsset) : Asset := x.value

/-! ## The XDR operation record -/

/-- `xdr.CreateAccountOp`. -/
structure CreateAccountOp where
  destination : XdrAccountId
  startingBalance : ℤ
deriving DecidableEq, Repr

/-- `xdr.PaymentOp`. -/
structure PaymentOp where
  destination : XdrAccountId
  asset : XdrAsset
  amount : ℤ
deriving DecidableEq, Repr

/-- `xdr.PathPaymentOp`. -/
structure PathPaymentOp where
  sendAsset : XdrAsset
  sendMax : ℤ
  destination : XdrAccountId
  destAsset : XdrAsset
  destAmount : ℤ
  path : List XdrAsset
deriving DecidableEq, Repr

/-- `xdr.ChangeTrustOp`. -/
structure ChangeTrustOp where
  line : XdrAsset
  limit : ℤ
deriving DecidableEq, Repr

/-- `xdr.AllowTrustOpAsset`: a 4- or 12-byte fixed-width asset code. -/
inductive AllowTrustOpAsset where
  | assetTypeCreditAlphanum4 (code : String)
  | assetTypeCreditAlphanum12 (code : String)
deriving DecidableEq, Repr

/-- `xdr.AllowTrustOp`. -/
structure AllowTrustOp where
  trustor : XdrAccountId
  asset : AllowTrustOpAsset
  authorize : Bool
deriving DecidableEq, Repr

/-- `xdr.Signer`. -/
structure Signer where
  pubKey : XdrAccountId
  weight : ℤ
deriving DecidableEq, Repr

/-- `xdr.SetOptionsOp` (every field optional, as in the XDR definition). -/
structure SetOptionsOp where
  inflationDest : Option XdrAccountId
  clearFlags : Option ℤ
  setFlags : Option ℤ
  masterWeight : Option ℤ
  lowThreshold : Option ℤ
  medThreshold : Option ℤ
  highThreshold : Option ℤ
  signer : Option Signer
  homeDomain : Option String
deriving DecidableEq, Repr

/-- `xdr.ManageOfferOp` (`offerId` is an `UnsignedHyper`). -/
structure ManageOfferOp where
  selling : XdrAsset
  buying : XdrAsset
  amount : ℤ
  price : XdrPrice
  offerId : ℕ
deriving DecidableEq, Repr

/-- `xdr.CreatePassiveOfferOp`. -/
structure CreatePassiveOfferOp where
  selling : XdrAsset
  buying : XdrAsset
  amount : ℤ
  price : XdrPrice
deriving DecidableEq, Repr

/-- `xdr.OperationBody`: the tagged union of operation variants.
`unknownOp` — modelled from the spec: the generated XDR union (not under
`src/`) admits variant tags beyond the ten the codec handles («Unknown
variant — decode encountered an unrecognized tag»). -/
inductive OperationBody where
  | createAccount (op : CreateAccountOp)
  | payment (op : PaymentOp)
  | pathPayment (op : PathPaymentOp)
  | changeTrust (op : ChangeTrustOp)
  | allowTrust (op : AllowTrustOp)
  | setOption (op : SetOptionsOp)
  | manageOffer (op : ManageOfferOp)
  | createPassiveOffer (op : CreatePassiveOfferOp)
  | accountMerge (destination : XdrAccountId)
  | inflation
  | unknownOp (tag : String)
deriving DecidableEq, Repr

/-- `xdr.Operation`: an optional source-account override plus the body. -/
structure XdrOperation where
  sourceAccount : Option XdrAccountId
  body : OperationBody
deriving DecidableEq, Repr

/-! ## Small JavaScript/library helpers used by the constructors -/

/-- lodash `padEnd(s, length, '\0')`. -/
def padEnd (s : String) (len : ℕ) (c : Char) : String :=
  ⟨s.data ++ List.replicate (len - s.data.length) c⟩

/-- lodash `trimEnd(s, "\0")`: strip trailing NUL characters. -/
def trimEndNul (s : String) : String :=
  ⟨(s.data.reverse.dropWhile (fun c => c = '\x00')).reverse⟩

/-- `value.toString()` on the JavaScript values an `offerId` option can
hold; `none` models the `TypeError` thrown on `null`/`undefined`. -/
def JSVal.toStr : JSVal → Option String
  | .str s => some s
  | .num d => some d.toString
  | .bignum (.fin d) => some d.toString
  | .bignum .negZero => some "0"
  | .bignum .nan => some "NaN"
  | .bignum .posInf => some "Infinity"
  | .bignum .negInf => some "-Infinity"
  | .jsNull => none
  | .undefined => none
  | .boolean b => some (if b then "true" else "false")

/-- `UnsignedHyper.fromString(s)`: a digit string read as an unsigned 64-bit
integer, wrapping modulo 2^64 — a minus-prefixed digit string wraps to its
two's-complement value, as `Long.fromString(·, true)` does; `none` models
the error thrown on other non-numeric strings. -/
def unsignedHyperFromString (s : String) : Option ℕ :=
  match s.data with
  | '-' :: t =>
    if t ≠ [] ∧ t.all isDigitC then
      some ((2 ^ 64 - natOfDigits t % 2 ^ 64) % 2 ^ 64)
    else none
  | t => if t ≠ [] ∧ t.all isDigitC then some (natOfDigits t % 2 ^ 64) else none

/-! ## The options records accepted by the constructors -/

/-- Options of `Operation.createAccount`. -/
structure CreateAccountOpts where
  destination : String
  startingBalance : JSVal
  source : Option String := none
deriving DecidableEq, Repr

/-- Options of `Operation.payment`. -/
structure PaymentOpts where
  destination : String
  asset : Option Asset
  amount : JSVal
  source : Option String := none
deriving DecidableEq, Repr

/-- Options of `Operation.pathPayment`. -/
structure PathPaymentOpts where
  sendAsset : Option Asset
  sendMax : JSVal
  destination : String
  destAsset : Option Asset
  destAmount : JSVal
  path : Option (List Asset) := none
  source : Option String := none
deriving DecidableEq, Repr

/-- Options of `Operation.changeTrust`. -/
structure ChangeTrustOpts where
  asset : Asset
  limit : Option JSVal := none
  source : Option String := none
deriving DecidableEq, Repr

/-- Options of `Operation.allowTrust`. -/
structure AllowTrustOpts where
  trustor : String
  assetCode : String
  authorize : Bool
  source : Option String := none
deriving DecidableEq, Repr

/-- The `signer` sub-record of `Operation.setOptions` options. -/
structure SignerOpts where
  address : String
  weight : ℤ
deriving DecidableEq, Repr

/-- Options of `Operation.setOptions` (all optional). -/
structure SetOptionsOpts where
  inflationDest : Option String := none
  clearFlags : Option ℤ := none
  setFlags : Option ℤ := none
  masterWeight : Option ℤ := none
  lowThreshold : Option ℤ := none
  medThreshold : Option ℤ := none
  highThreshold : Option ℤ := none
  signer : Option SignerOpts := none
  homeDomain : Option JSVal := none
  source : Option String := none
deriving DecidableEq, Repr

/-- Options of `Operation.manageOffer`. -/
structure ManageOfferOpts where
  selling : Asset
  buying : Asset
  amount : JSVal
  price : Option PriceInput
  offerId : Option JSVal := none
  source : Option String := none
deriving DecidableEq, Repr

/-- Options of `Operation.createPassiveOffer`. -/
structure CreatePassiveOfferOpts where
  selling : Asset
  buying : Asset
  amount : JSVal
  price : Option PriceInput
  source : Option String := none
deriving DecidableEq, Repr

/-- Options of `Operation.accountMerge`. -/
structure AccountMergeOpts where
  destination : String
  source : Option String := none
deriving DecidableEq, Repr

/-- Options of `Operation.inflation`. -/
structure InflationOpts where
  source : Option String := none
deriving DecidableEq, Repr

namespace Operation

/-- `Operation.setSourceAccount(opAttributes, opts)`: when `opts.source` is
truthy it must be a valid account id and becomes the source-account
override. -/
def setSourceAccount (source : Option String) : Except String (Option XdrAccountId) :=
  match source with
  | some s =>
    if s ≠ "" then
      if ¬ Account.isValidAccountId s then .error "Source address is invalid"
      else .ok (some (keypairXdrAccountId s))
    else .ok none
  | none => .ok none

/-- `Operation.createAccount(opts)`. -/
def createAccount (opts : CreateAccountOpts) : Except String XdrOperation := do
  if ¬ Account.isValidAccountId opts.destination then
    .error "destination is invalid"
  else if ¬ isValidAmount opts.startingBalance then
    .error "startingBalance argument must be of type String and represent a positive number"
  else
    match toXDRAmount opts.startingBalance with
    | none => .error "invalid amount"  -- unreachable once isValidAmount has passed
    | some startingBalance => do
      let src ← setSourceAccount opts.source
      .ok ⟨src, .createAccount ⟨keypairXdrAccountId opts.destination, startingBalance⟩⟩

/-- `Operation.payment(opts)`. -/
def payment (opts : PaymentOpts) : Except String XdrOperation := do
  if ¬ Account.isValidAccountId opts.destination then
    .error "destination is invalid"
  else
    match opts.asset with
    | none => .error "Must provide an asset for a payment operation"
    | some asset =>
      if ¬ isValidAmount opts.amount then
        .error "amount argument must be of type String and represent a positive number"
      else
        match toXDRAmount opts.amount with
        | none => .error "invalid amount"  -- unreachable once isValidAmount has passed
        | some amount => do
          let src ← setSourceAccount opts.source
          .ok ⟨src, .payment ⟨keypairXdrAccountId opts.destination, asset.toXdrObject, amount⟩⟩

/-- `Operation.pathPayment(opts)`. -/
def pathPayment (opts : PathPaymentOpts) : Except String XdrOperation := do
  match opts.sendAsset with
  | none => .error "Must specify a send asset"
  | some sendAsset =>
    if ¬ isValidAmount opts.sendMax then
      .error "sendMax argument must be of type String and represent a positive number"
    else if ¬ Account.isValidAccountId opts.destination then
      .error "destination is invalid"
    else
      match opts.destAsset with
      | none => .error "Must provide a destAsset for a payment operation"
      | some destAsset =>
        if ¬ isValidAmount opts.destAmount then
          .error "destAmount argument must be of type String and represent a positive number"
        else
          match toXDRAmount opts.sendMax, toXDRAmount opts.destAmount with
          | some sendMax, some destAmount => do
            let path := (opts.path.getD []).map Asset.toXdrObject
            let src ← setSourceAccount opts.source
            .ok ⟨src, .pathPayment
              ⟨sendAsset.toXdrObject, sendMax, keypairXdrAccountId opts.destination,
               destAsset.toXdrObject, destAmount, path⟩⟩
          | _, _ => .error "invalid amount"  -- unreachable once isValidAmount has passed

/-- `Operation.changeTrust(opts)`: an omitted (or falsy) limit defaults to
the maximum int64 amount; a supplied limit must be a valid amount with zero
allowed. -/
def changeTrust (opts : ChangeTrustOpts) : Except String XdrOperation := do
  let line := opts.asset.toXdrObject
  if opts.limit.isSome ∧ ¬ isValidAmount (opts.limit.getD .undefined) true then
    .error "limit argument must be of type String and represent a number"
  else
    let limitVal : Except String ℤ :=
      if jsTruthy opts.limit then
        match toXDRAmount (opts.limit.getD .undefined) with
        | some v => .ok v
        | none => .error "invalid amount"  -- unreachable once isValidAmount has passed
      else .ok MAX_INT64
    match limitVal with
    | .error e => .error e
    | .ok limit => do
      let src ← setSourceAccount opts.source
      .ok ⟨src, .changeTrust ⟨line, limit⟩⟩

/-- `Operation.allowTrust(opts)`: the asset code is NUL-padded to 4 bytes
when it fits in 4 characters, to 12 bytes when it fits in 12, and rejected
beyond that. -/
def allowTrust (opts : AllowTrustOpts) : Except String XdrOperation := do
  if ¬ Account.isValidAccountId opts.trustor then
    .error "trustor is invalid"
  else
    let asset : Except String AllowTrustOpAsset :=
      if opts.assetCode.length ≤ 4 then
        .ok (.assetTypeCreditAlphanum4 (padEnd opts.assetCode 4 '\x00'))
      else if opts.assetCode.length ≤ 12 then
        .ok (.assetTypeCreditAlphanum12 (padEnd opts.assetCode 12 '\x00'))
      else .error "Asset code must be 12 characters at max."
    match asset with
    | .error e => .error e
    | .ok asset => do
      let src ← setSourceAccount opts.source
      .ok ⟨src, .allowTrust ⟨keypairXdrAccountId opts.trustor, asset, opts.authorize⟩⟩

/-- Is an optional weight/threshold present and outside `[0, 255]`? -/
def outOfRange255 : Option ℤ → Bool
  | some w => w < 0 ∨ 255 < w
  | none => false

/-- `Operation.setOptions(opts)`. -/
def setOptions (opts : SetOptionsOpts) : Except String XdrOperation := do
  let inflationDest : Option XdrAccountId ←
    match opts.inflationDest with
    | some s =>
      if s ≠ "" then
        if ¬ Account.isValidAccountId s then .error "inflationDest is invalid"
        else .ok (some (keypairXdrAccountId s))
      else .ok none
    | none => .ok none
  if outOfRange255 opts.masterWeight then
    .error "masterWeight value must be between 0 and 255"
  else if outOfRange255 opts.lowThreshold then
    .error "lowThreshold value must be between 0 and 255"
  else if outOfRange255 opts.medThreshold then
    .error "medThreshold value must be between 0 and 255"
  else if outOfRange255 opts.highThreshold then
    .error "highThreshold value must be between 0 and 255"
  else
    let homeDomain : Except String (Option String) :=
      match opts.homeDomain with
      | some (.str s) => .ok (some s)
      | some _ => .error "homeDomain argument must be of type String"
      | none => .ok none
    match homeDomain with
    | .error e => .error e
    | .ok homeDomain => do
      let signer : Option Signer ←
        match opts.signer with
        | some sg =>
          if ¬ Account.isValidAccountId sg.address then
            .error "signer.address is invalid"
          else if sg.weight < 0 ∨ 255 < sg.weight then
            .error "signer.weight value must be between 0 and 255"
          else .ok (some ⟨keypairXdrAccountId sg.address, sg.weight⟩)
        | none => .ok none
      let src ← setSourceAccount opts.source
      .ok ⟨src, .setOption
        ⟨inflationDest, opts.clearFlags, opts.setFlags, opts.masterWeight,
         opts.lowThreshold, opts.medThreshold, opts.highThreshold, signer, homeDomain⟩⟩

/-- `Operation.manageOffer(opts)`: zero amounts are allowed (offer
deletion); `offerId` defaults to `"0"` and is otherwise stringified and read
as an `UnsignedHyper`. -/
def manageOffer (opts : ManageOfferOpts) : Except String XdrOperation := do
  let selling := opts.selling.toXdrObject
  let buying := opts.buying.toXdrObject
  if ¬ isValidAmount opts.amount true then
    .error "amount argument must be of type String and represent a positive number or zero"
  else
    match toXDRAmount opts.amount with
    | none => .error "invalid amount"  -- unreachable once isValidAmount has passed
    | some amount =>
      match opts.price with
      | none => .error "price argument is required"
      | some priceInput => do
        let price ← toXDRPrice priceInput
        let offerIdStr : Except String String :=
          match opts.offerId with
          | some v =>
            match v.toStr with
            | some s => .ok s
            | none => .error "offerId is not stringifiable"
          | none => .ok "0"
        match offerIdStr with
        | .error e => .error e
        | .ok offerIdStr =>
          match unsignedHyperFromString offerIdStr with
          | none => .error "offerId is not numeric"
          | some offerId => do
            let src ← setSourceAccount opts.source
            .ok ⟨src, .manageOffer ⟨selling, buying, amount, price, offerId⟩⟩

/-- `Operation.createPassiveOffer(opts)`. -/
def createPassiveOffer (opts : CreatePassiveOfferOpts) : Except String XdrOperation := do
  let selling := opts.selling.toXdrObject
  let buying := opts.buying.toXdrObject
  if ¬ isValidAmount opts.amount then
    .error "amount argument must be of type String and represent a positive number"
  else
    match toXDRAmount opts.amount with
    | none => .error "invalid amount"  -- unreachable once isValidAmount has passed
    | some amount =>
      match opts.price with
      | none => .error "price argument is required"
      | some priceInput => do
        let price ← toXDRPrice priceInput
        let src ← setSourceAccount opts.source
        .ok ⟨src, .createPassiveOffer ⟨selling, buying, amount, price⟩⟩

/-- `Operation.accountMerge(opts)`. -/
def accountMerge (opts : AccountMergeOpts) : Except String XdrOperation := do
  if ¬ Account.isValidAccountId opts.destination then
    .error "destination is invalid"
  else do
    let src ← setSourceAccount opts.source
    .ok ⟨src, .accountMerge (keypairXdrAccountId opts.destination)⟩

/-- `Operation.inflation(opts)`. -/
def inflation (opts : InflationOpts := {}) : Except String XdrOperation := do
  let src ← setSourceAccount opts.source
  .ok ⟨src, .inflation⟩

end Operation

/-- The plain options record produced by `Operation.operationToObject`: one
shape per variant tag, each carrying the optional decoded `source`. -/
inductive OperationObject where
  | createAccount (source : Option String) (destination : String)
      (startingBalance : String)
  | payment (source : Option String) (destination : String) (asset : Asset)
      (amount : String)
  | pathPayment (source : Option String) (sendAsset : Asset) (sendMax : String)
      (destination : String) (destAsset : Asset) (destAmount : String)
      (path : List Asset)
  | changeTrust (source : Option String) (line : Asset) (limit : String)
  | allowTrust (source : Option String) (trustor : String) (assetCode : String)
      (authorize : Bool)
  | setOptions (source : Option String) (inflationDest : Option String)
      (clearFlags setFlags masterWeight lowThreshold medThreshold highThreshold : Option ℤ)
      (homeDomain : Option String) (signer : Option (String × ℤ))
  | manageOffer (source : Option String) (selling buying : Asset)
      (amount : String) (price : String) (offerId : String)
  | createPassiveOffer (source : Option String) (selling buying : Asset)
      (amount : String) (price : String)
  | accountMerge (source : Option String) (destination : String)
  | inflation (source : Option String)
deriving DecidableEq, Repr

namespace Operation

/-- `Operation.operationToObject(operation)`: dispatch on the body's variant
tag, unscaling amounts, rendering prices and account ids, and stripping the
NUL padding of `allowTrust` asset codes; an unrecognised tag is an error. -/
def operationToObject (operation : XdrOperation) : Except String OperationObject :=
  let source := operation.sourceAccount.map accountIdtoAddress
  match operation.body with
  | .createAccount attrs =>
    .ok (.createAccount source (accountIdtoAddress attrs.destination)
      (fromXDRAmount attrs.startingBalance))
  | .payment attrs =>
    .ok (.payment source (accountIdtoAddress attrs.destination)
      (Asset.fromOperation attrs.asset) (fromXDRAmount attrs.amount))
  | .pathPayment attrs =>
    .ok (.pathPayment source (Asset.fromOperation attrs.sendAsset)
      (fromXDRAmount attrs.sendMax) (accountIdtoAddress attrs.destination)
      (Asset.fromOperation attrs.destAsset) (fromXDRAmount attrs.destAmount)
      (attrs.path.map Asset.fromOperation))
  | .changeTrust attrs =>
    .ok (.changeTrust source (Asset.fromOperation attrs.line)
      (fromXDRAmount attrs.limit))
  | .allowTrust attrs =>
    let rawCode :=
      match attrs.asset with
      | .assetTypeCreditAlphanum4 code => code
      | .assetTypeCreditAlphanum12 code => code
    .ok (.allowTrust source (accountIdtoAddress attrs.trustor)
      (trimEndNul rawCode) attrs.authorize)
  | .setOption attrs =>
    .ok (.setOptions source (attrs.inflationDest.map accountIdtoAddress)
      attrs.clearFlags attrs.setFlags attrs.masterWeight attrs.lowThreshold
      attrs.medThreshold attrs.highThreshold attrs.homeDomain
      (attrs.signer.map fun sg => (accountIdtoAddress sg.pubKey, sg.weight)))
  | .manageOffer attrs =>
    .ok (.manageOffer source (Asset.fromOperation attrs.selling)
      (Asset.fromOperation attrs.buying) (fromXDRAmount attrs.amount)
      (fromXDRPrice attrs.price) ⟨renderNat attrs.offerId⟩)
  | .createPassiveOffer attrs =>
    .ok (.createPassiveOffer source (Asset.fromOperation attrs.selling)
      (Asset.fromOperation attrs.buying) (fromXDRAmount attrs.amount)
      (fromXDRPrice attrs.price))
  | .accountMerge destination =>
    .ok (.accountMerge source (accountIdtoAddress destination))
  | .inflation => .ok (.inflation source)
  | .unknownOp _ => .error "Unknown operation"

end Operation

/-! ## Comparison of fields «modulo canonical string formatting»

A decoded amount string is compared with the caller's amount value by the
finite decimal value each denotes. -/

/-- The decimal value denoted by a JavaScript value, when it is a string
denoting a finite one. -/
def jsDecValue : JSVal → Option ℚ
  | .str s => Operation.decValue s
  | _ => none

/-- Two amount representations agree modulo canonical string formatting:
they denote the same finite decimal value. -/
def SameDecValue (decoded : String) (orig : JSVal) : Prop :=
  ∃ q, Operation.decValue decoded = some q ∧ jsDecValue orig = some q

/-- The home-domain string carried by an options record, when it is a
string. -/
def homeDomainString : Option JSVal → Option String
  | some (.str s) => some s
  | some _ => none
  | none => none

/-- An optional weight/threshold option lies inside `[0, 255]` whenever
present. -/
def InRange255 (o : Option ℤ) : Prop := ∀ w ∈ o, 0 ≤ w ∧ w ≤ 255

/-- A string's final character is NUL (such asset codes cannot survive the
decoder's padding strip). -/
def endsInNul (s : String) : Bool :=
  match s.data.getLast? with
  | some c => c = '\x00'
  | none => false

/-- The source-account override actually stored for a given `source` option
(JavaScript-falsy empty strings are skipped). -/
def srcId (source : Option String) : Option XdrAccountId :=
  source.bind fun s => if s = "" then none else some (keypairXdrAccountId s)

/-- The validity conditions of `setOptions` other than the weight/threshold
ranges: inflation destination valid or skipped, signer address valid, home
domain a string. -/
def SetOptionsOtherOk (opts : SetOptionsOpts) : Prop :=
  (match opts.inflationDest with
    | some s => s = "" ∨ Account.isValidAccountId s = true
    | none => True) ∧
  (match opts.signer with
    | some sg => Account.isValidAccountId sg.address = true
    | none => True) ∧
  (match opts.homeDomain with
    | some v => v.isString = true
    | none => True)

/-! # Proof development

## Digit characters and `natOfDigits` -/

/-- The characters produced by the digit renderer. -/
def DigitChar (c : Char) : Prop := ∃ d, d < 10 ∧ c = Char.ofNat (48 + d)

theorem digitChar_isDigit {c : Char} (h : DigitChar c) : isDigitC c = true := by
  obtain ⟨d, hd, rfl⟩ := h
  interval_cases d <;> decide

theorem digitChar_val {d : ℕ} (hd : d < 10) : digitVal (Char.ofNat (48 + d)) = d := by
  interval_cases d <;> decide

theorem digitChar_not_special {c : Char} (h : DigitChar c) :
    expChar c = false ∧ c ≠ '.' ∧ c ≠ '-' ∧ c ≠ '+' := by
  obtain ⟨d, hd, rfl⟩ := h
  interval_cases d <;> decide

theorem digitChar_ne_of_not {c c' : Char} (h : DigitChar c) (h' : ¬ DigitChar c') :
    c ≠ c' := by
  rintro rfl; exact h' h

theorem natOfDigits_foldl (a : ℕ) (l : List Char) :
    l.foldl (fun a c => 10 * a + digitVal c) a = a * 10 ^ l.length + natOfDigits l := by
  induction l generalizing a with
  | nil => simp [natOfDigits]
  | cons c t ih =>
    simp only [List.foldl_cons, List.length_cons, natOfDigits]
    rw [ih (10 * a + digitVal c), ih (10 * 0 + digitVal c)]
    ring

theorem natOfDigits_cons (c : Char) (t : List Char) :
    natOfDigits (c :: t) = digitVal c * 10 ^ t.length + natOfDigits t := by
  simpa [natOfDigits] using natOfDigits_foldl (10 * 0 + digitVal c) t

theorem natOfDigits_append (l₁ l₂ : List Char) :
    natOfDigits (l₁ ++ l₂) = natOfDigits l₁ * 10 ^ l₂.length + natOfDigits l₂ := by
  simpa [natOfDigits] using natOfDigits_foldl (natOfDigits l₁) l₂

theorem natOfDigits_replicate_zero (k : ℕ) :
    natOfDigits (List.replicate k '0') = 0 := by
  induction k with
  | zero => rfl
  | succ k ih => rw [List.replicate_succ, natOfDigits_cons, ih]; simp [digitVal]

/-! ## The fuel-based digit function agrees with `Nat.digits` -/

theorem natDigitsAux_eq (fuel n : ℕ) (h : n ≤ fuel) :
    natDigitsAux fuel n = Nat.digits 10 n := by
  induction fuel generalizing n with
  | zero =>
    interval_cases n
    simp [natDigitsAux]
  | succ f ih =>
    match n with
    | 0 => simp [natDigitsAux]
    | n + 1 =>
      have hlt : (n + 1) / 10 < n + 1 := Nat.div_lt_self (Nat.succ_pos n) (by norm_num)
      have hle : (n + 1) / 10 ≤ f := by omega
      show (n + 1) % 10 :: natDigitsAux f ((n + 1) / 10) = _
      rw [Nat.digits_def' (by norm_num : (1 : ℕ) < 10) (Nat.succ_pos n), ih _ hle]

theorem natDigits_eq (n : ℕ) : natDigits n = Nat.digits 10 n :=
  natDigitsAux_eq n n le_rfl

/-! ## Correctness of the digit renderer -/

theorem natOfDigits_reverse_map (L : List ℕ) (hL : ∀ d ∈ L, d < 10) :
    natOfDigits (L.reverse.map fun d => Char.ofNat (48 + d)) = Nat.ofDigits 10 L := by
  induction L with
  | nil => simp [natOfDigits, Nat.ofDigits_nil]
  | cons d T ih =>
    have hd : d < 10 := hL d (List.mem_cons_self d T)
    have hT : ∀ x ∈ T, x < 10 := fun x hx => hL x (List.mem_cons_of_mem d hx)
    simp only [List.reverse_cons, List.map_append, List.map_cons, List.map_nil]
    rw [natOfDigits_append, ih hT, Nat.ofDigits_cons]
    simp [natOfDigits_cons, natOfDigits, digitChar_val hd]
    ring

theorem natOfDigits_renderDigits (n : ℕ) : natOfDigits (renderDigits n) = n := by
  rw [renderDigits, natDigits_eq,
    natOfDigits_reverse_map _ fun d hd => Nat.digits_lt_base (by norm_num) hd,
    Nat.ofDigits_digits]

theorem renderDigits_digitChar (n : ℕ) : ∀ c ∈ renderDigits n, DigitChar c := by
  intro c hc
  rw [renderDigits, natDigits_eq] at hc
  simp only [List.mem_map, List.mem_reverse] at hc
  obtain ⟨d, hd, rfl⟩ := hc
  exact ⟨d, Nat.digits_lt_base (by norm_num) hd, rfl⟩

theorem renderDigits_ne_nil {n : ℕ} (hn : n ≠ 0) : renderDigits n ≠ [] := by
  rw [renderDigits, natDigits_eq]
  simp [Nat.digits_ne_nil_iff_ne_zero, hn]

theorem natOfDigits_renderNat (n : ℕ) : natOfDigits (renderNat n) = n := by
  rw [renderNat]
  split
  · simp [natOfDigits, digitVal]; omega
  · exact natOfDigits_renderDigits n

theorem renderNat_digitChar (n : ℕ) : ∀ c ∈ renderNat n, DigitChar c := by
  rw [renderNat]
  split
  · rintro c hc
    simp only [List.mem_singleton] at hc
    exact hc ▸ ⟨0, by norm_num, rfl⟩
  · exact renderDigits_digitChar n

/-! ## `splitFirstP` -/

theorem splitFirstP_eq_none {p : Char → Bool} {l : List Char}
    (h : ∀ c ∈ l, p c = false) : splitFirstP p l = none := by
  induction l with
  | nil => rfl
  | cons c t ih =>
    rw [splitFirstP, if_neg (by simp [h c (List.mem_cons_self c t)]),
      ih fun x hx => h x (List.mem_cons_of_mem c hx)]

theorem splitFirstP_append {p : Char → Bool} {l₁ l₂ : List Char} {c : Char}
    (h₁ : ∀ x ∈ l₁, p x = false) (hc : p c = true) :
    splitFirstP p (l₁ ++ c :: l₂) = some (l₁, l₂) := by
  induction l₁ with
  | nil => simp [splitFirstP, hc]
  | cons a t ih =>
    rw [List.cons_append, splitFirstP,
      if_neg (by simp [h₁ a (List.mem_cons_self a t)]),
      ih fun x hx => h₁ x (List.mem_cons_of_mem a hx)]

/-! ## Normal forms and values of decimal floats -/

/-- A decimal float in the library's canonical form: zero with exponent 0, or
a coefficient free of trailing zero digits. -/
def NormP (d : Dec) : Prop := (d.c = 0 ∧ d.e = 0) ∨ ¬ (10 : ℤ) ∣ d.c

theorem Dec.toRat_eq (d : Dec) : d.toRat = (d.c : ℚ) * 10 ^ d.e := by
  rw [Dec.toRat]
  split
  · next h =>
    push_cast
    rw [← zpow_natCast, Int.toNat_of_nonneg h]
  · next h =>
    rw [Rat.mkRat_eq_div]
    push_cast
    rw [← zpow_natCast, Int.toNat_of_nonneg (by omega : (0 : ℤ) ≤ -d.e),
      zpow_neg, div_eq_mul_inv, inv_inv]

theorem Dec.toRat_eq_zero_iff (d : Dec) : d.toRat = 0 ↔ d.c = 0 := by
  rw [Dec.toRat_eq, mul_eq_zero]
  have : (10 : ℚ) ^ d.e ≠ 0 := zpow_ne_zero _ (by norm_num)
  simp [this, Int.cast_eq_zero]

theorem Dec.toRat_neg_iff (d : Dec) : d.toRat < 0 ↔ d.c < 0 := by
  rw [Dec.toRat_eq]
  have hpos : (0 : ℚ) < 10 ^ d.e := zpow_pos (by norm_num) _
  constructor
  · intro h
    by_contra hc
    push_neg at hc
    have : (0 : ℚ) ≤ (d.c : ℚ) * 10 ^ d.e :=
      mul_nonneg (by exact_mod_cast hc) hpos.le
    linarith
  · intro h
    have : ((d.c : ℚ)) < 0 := by exact_mod_cast h
    exact mul_neg_of_neg_of_pos this hpos

/-- Shift a power of ten between the coefficient and the exponent. -/
theorem intCast_mul_zpow_shift {x u v : ℤ} (hle : v ≤ u) :
    (x : ℚ) * 10 ^ u = ((x * 10 ^ (u - v).toNat : ℤ) : ℚ) * 10 ^ v := by
  push_cast
  rw [mul_assoc, ← zpow_natCast (10 : ℚ) (u - v).toNat,
    ← zpow_add₀ (by norm_num : (10 : ℚ) ≠ 0)]
  congr 2
  omega

theorem intCast_mul_zpow_lt {x y u v : ℤ} (hle : v ≤ u) :
    (y : ℚ) * 10 ^ v < (x : ℚ) * 10 ^ u ↔ y < x * 10 ^ (u - v).toNat := by
  rw [intCast_mul_zpow_shift hle,
    mul_lt_mul_right (zpow_pos (by norm_num) v), Int.cast_lt]

theorem intCast_mul_zpow_lt' {x y u v : ℤ} (hle : v ≤ u) :
    (y : ℚ) * 10 ^ u < (x : ℚ) * 10 ^ v ↔ y * 10 ^ (u - v).toNat < x := by
  rw [@intCast_mul_zpow_shift y u v hle,
    mul_lt_mul_right (zpow_pos (by norm_num) v), Int.cast_lt]

theorem Dec.gtD_iff (a b : Dec) : Dec.gtD a b = true ↔ b.toRat < a.toRat := by
  rw [Dec.gtD, Dec.toRat_eq, Dec.toRat_eq]
  split
  · next hle =>
    rw [decide_eq_true_iff, ← intCast_mul_zpow_lt hle]
  · next hgt =>
    rw [decide_eq_true_iff, ← intCast_mul_zpow_lt' (by omega : a.e ≤ b.e)]

theorem stripZerosAux_val (fuel : ℕ) (c e : ℤ) :
    ((stripZerosAux fuel c e).1 : ℚ) * 10 ^ (stripZerosAux fuel c e).2
      = (c : ℚ) * 10 ^ e := by
  induction fuel generalizing c e with
  | zero => rfl
  | succ f ih =>
    rw [stripZerosAux]
    split
    · next h =>
      obtain ⟨k, hk⟩ : (10 : ℤ) ∣ c := Int.dvd_of_emod_eq_zero h.2
      have hdiv : c / 10 = k := by rw [hk]; exact Int.mul_ediv_cancel_left k (by norm_num)
      rw [ih, hdiv, hk]
      push_cast
      rw [zpow_add₀ (by norm_num : (10 : ℚ) ≠ 0)]
      ring
    · rfl

theorem stripZerosAux_not_dvd (fuel : ℕ) (c e : ℤ) (hc : c ≠ 0)
    (hfuel : c.natAbs ≤ fuel) : ¬ (10 : ℤ) ∣ (stripZerosAux fuel c e).1 := by
  induction fuel generalizing c e with
  | zero =>
    exact absurd (Int.natAbs_eq_zero.mp (Nat.le_zero.mp hfuel)) hc
  | succ f ih =>
    rw [stripZerosAux]
    split
    · next h =>
      obtain ⟨k, hk⟩ : (10 : ℤ) ∣ c := Int.dvd_of_emod_eq_zero h.2
      have hdiv : c / 10 = k := by rw [hk]; exact Int.mul_ediv_cancel_left k (by norm_num)
      have hk0 : k ≠ 0 := by rintro rfl; simp at hk; exact hc hk
      have habs : c.natAbs = 10 * k.natAbs := by rw [hk, Int.natAbs_mul]; rfl
      have : k.natAbs ≤ f := by
        have h1 : 1 ≤ k.natAbs := Nat.one_le_iff_ne_zero.mpr (Int.natAbs_ne_zero.mpr hk0)
        omega
      rw [hdiv]
      exact ih k (e + 1) hk0 this
    · next h =>
      intro hdvd
      exact h ⟨hc, Int.emod_eq_zero_of_dvd hdvd⟩

theorem Dec.toRat_norm (x : Dec) : (Dec.norm x).toRat = x.toRat := by
  rw [Dec.norm]
  split
  · next h =>
    rw [Dec.toRat_eq, Dec.toRat_eq, h]
    simp
  · rw [Dec.toRat_eq, Dec.toRat_eq]
    exact stripZerosAux_val x.c.natAbs x.c x.e

theorem normP_norm (x : Dec) : NormP (Dec.norm x) := by
  rw [Dec.norm]
  split
  · exact .inl ⟨rfl, rfl⟩
  · next h =>
    exact .inr (stripZerosAux_not_dvd x.c.natAbs x.c x.e h le_rfl)

theorem normP_inj_aux {a b : Dec} (ha : ¬ (10 : ℤ) ∣ a.c) (hb : ¬ (10 : ℤ) ∣ b.c)
    (hval : a.toRat = b.toRat) (hle : a.e ≤ b.e) : a = b := by
  rw [Dec.toRat_eq, Dec.toRat_eq, @intCast_mul_zpow_shift b.c b.e a.e hle] at hval
  have hval' : a.c = b.c * 10 ^ (b.e - a.e).toNat := by
    have := mul_right_cancel₀ (zpow_ne_zero a.e (by norm_num : (10 : ℚ) ≠ 0)) hval
    exact_mod_cast this
  have hzero : (b.e - a.e).toNat = 0 := by
    by_contra hne
    obtain ⟨m, hm⟩ := Nat.exists_eq_succ_of_ne_zero hne
    exact ha ⟨b.c * 10 ^ m, by rw [hval', hm, pow_succ]; ring⟩
  have he : a.e = b.e := by omega
  have hc : a.c = b.c := by rw [hval', hzero]; ring
  cases a; cases b
  simp_all

theorem normP_inj {a b : Dec} (ha : NormP a) (hb : NormP b)
    (hval : a.toRat = b.toRat) : a = b := by
  rcases ha with ⟨hac, hae⟩ | ha
  · have hb0 : b.c = 0 := by
      rw [← Dec.toRat_eq_zero_iff, ← hval, Dec.toRat_eq_zero_iff]
      exact hac
    rcases hb with ⟨_, hbe⟩ | hb
    · cases a; cases b; simp_all
    · exact absurd (hb0 ▸ dvd_zero 10) hb
  · rcases hb with ⟨hbc, hbe⟩ | hb
    · have ha0 : a.c = 0 := by
        rw [← Dec.toRat_eq_zero_iff, hval, Dec.toRat_eq_zero_iff]
        exact hbc
      exact absurd (ha0 ▸ dvd_zero 10) ha
    · rcases le_total a.e b.e with hle | hle
      · exact normP_inj_aux ha hb hval hle
      · exact (normP_inj_aux hb ha hval.symm hle).symm

theorem norm_eq_of_val {x d : Dec} (hd : NormP d) (h : x.toRat = d.toRat) :
    Dec.norm x = d :=
  normP_inj (normP_norm x) hd ((Dec.toRat_norm x).trans h)

theorem norm_eq_self {d : Dec} (hd : NormP d) : Dec.norm d = d :=
  norm_eq_of_val hd rfl

/-! ## The parser inverts the renderer -/

theorem digitChar_extra {c : Char} (h : DigitChar c) :
    c ≠ 'I' ∧ c ≠ 'N' ∧ isDigitC c = true ∧ (fun x => decide (x = '.')) c = false ∧
      expChar c = false := by
  obtain ⟨d, hd, rfl⟩ := h
  interval_cases d <;> decide

theorem digitChar_zero : DigitChar '0' := ⟨0, by norm_num, rfl⟩

theorem parseMantissa_digits {l : List Char} (hne : l ≠ [])
    (hdig : ∀ c ∈ l, DigitChar c) :
    parseMantissa l = some ⟨(natOfDigits l : ℤ), 0⟩ := by
  rw [parseMantissa,
    splitFirstP_eq_none fun c hc => (digitChar_extra (hdig c hc)).2.2.2.1]
  rw [if_pos ⟨hne, List.all_eq_true.mpr fun c hc => (digitChar_extra (hdig c hc)).2.2.1⟩]

theorem parseMantissa_dot {ip fp : List Char} (hne : ip ≠ [] ∨ fp ≠ [])
    (hip : ∀ c ∈ ip, DigitChar c) (hfp : ∀ c ∈ fp, DigitChar c) :
    parseMantissa (ip ++ '.' :: fp)
      = some ⟨(natOfDigits (ip ++ fp) : ℤ), -(fp.length : ℤ)⟩ := by
  rw [parseMantissa,
    splitFirstP_append (fun c hc => (digitChar_extra (hip c hc)).2.2.2.1) (by decide)]
  dsimp only
  rw [if_pos ⟨hne, List.all_eq_true.mpr fun c hc => (digitChar_extra (hip c hc)).2.2.1,
    List.all_eq_true.mpr fun c hc => (digitChar_extra (hfp c hc)).2.2.1⟩]

theorem parseDecCore_no_exp {l : List Char} (h : ∀ c ∈ l, expChar c = false) :
    parseDecCore l = parseMantissa l := by
  rw [parseDecCore, splitFirstP_eq_none h]

theorem parseDecCore_exp {m ex : List Char} (hm : ∀ c ∈ m, expChar c = false) :
    parseDecCore (m ++ 'e' :: ex)
      = (parseMantissa m).bind fun dm =>
          (parseSignedInt ex).bind fun ev => some ⟨dm.c, dm.e + ev⟩ := by
  rw [parseDecCore, splitFirstP_append hm (by decide)]
  rfl

theorem renderNat_ne_nil (n : ℕ) : renderNat n ≠ [] := by
  rw [renderNat]
  split
  · simp
  · next h => exact renderDigits_ne_nil h

theorem parseSignedInt_neg {t : List Char} (hne : t ≠ [])
    (hdig : ∀ c ∈ t, DigitChar c) :
    parseSignedInt ('-' :: t) = some (-(natOfDigits t : ℤ)) := by
  rw [parseSignedInt,
    if_pos ⟨hne, List.all_eq_true.mpr fun c hc => (digitChar_extra (hdig c hc)).2.2.1⟩]

theorem parseSignedInt_pos {t : List Char} (hne : t ≠ [])
    (hdig : ∀ c ∈ t, DigitChar c) :
    parseSignedInt ('+' :: t) = some ((natOfDigits t : ℤ)) := by
  rw [parseSignedInt,
    if_pos ⟨hne, List.all_eq_true.mpr fun c hc => (digitChar_extra (hdig c hc)).2.2.1⟩]

theorem natOfDigits_single (c : Char) : natOfDigits [c] = digitVal c := by
  simp [natOfDigits]

/-- Parsing the unsigned body rendered for a nonzero-coefficient decimal
float recovers a decimal with the magnitude's value; the body always starts
with a digit character. -/
theorem parseDecCore_decBody (d : Dec) (hc : d.c ≠ 0) :
    (∃ b0 rest, decBody d = b0 :: rest ∧ DigitChar b0) ∧
    ∃ b, parseDecCore (decBody d) = some b ∧
      b.toRat = Dec.toRat ⟨(d.c.natAbs : ℤ), d.e⟩ := by
  have hnabs : d.c.natAbs ≠ 0 := Int.natAbs_ne_zero.mpr hc
  have hne := renderDigits_ne_nil hnabs
  have hdig := renderDigits_digitChar d.c.natAbs
  have hval := natOfDigits_renderDigits d.c.natAbs
  obtain ⟨dh, dt, hds⟩ := List.exists_cons_of_ne_nil hne
  rw [hds] at hdig hval
  have hdh : DigitChar dh := hdig dh (List.mem_cons_self dh dt)
  have hdt : ∀ c ∈ dt, DigitChar c := fun c hcm => hdig c (List.mem_cons_of_mem dh hcm)
  simp only [decBody]
  rw [hds]
  split
  · next hsci =>
    -- exponential notation `dh[.dt]e±k`
    rw [expNotation.eq_def]
    dsimp only
    have hexpdig := renderNat_digitChar (d.e + ((dh :: dt).length : ℤ) - 1).natAbs
    have hev : parseSignedInt
        ((if d.e + ((dh :: dt).length : ℤ) - 1 < 0 then '-' else '+') ::
          renderNat (d.e + ((dh :: dt).length : ℤ) - 1).natAbs)
        = some (d.e + ((dh :: dt).length : ℤ) - 1) := by
      split
      · next hlt =>
        rw [parseSignedInt_neg (renderNat_ne_nil _) hexpdig, natOfDigits_renderNat]
        congr 1
        omega
      · next hge =>
        rw [parseSignedInt_pos (renderNat_ne_nil _) hexpdig, natOfDigits_renderNat]
        congr 1
        omega
    by_cases hdtnil : dt = []
    · subst hdtnil
      rw [if_pos rfl]
      refine ⟨⟨dh, _, by rw [List.cons_append], hdh⟩, ?_⟩
      have hm : ∀ c ∈ (dh :: [] : List Char), expChar c = false := by
        intro c hcm
        rw [List.mem_singleton] at hcm
        exact hcm ▸ (digitChar_extra hdh).2.2.2.2
      rw [parseDecCore_exp hm,
        parseMantissa_digits (by simp) (by
          intro c hcm
          rw [List.mem_singleton] at hcm
          exact hcm ▸ hdh), hev]
      refine ⟨_, rfl, ?_⟩
      congr 1
      have hc' : ((natOfDigits [dh] : ℤ)) = ((d.c.natAbs : ℕ) : ℤ) := by
        exact_mod_cast hval
      rw [Dec.mk.injEq]
      refine ⟨hc', ?_⟩
      simp
    · rw [if_neg hdtnil]
      refine ⟨⟨dh, _, by rw [List.cons_append], hdh⟩, ?_⟩
      have hm : ∀ c ∈ dh :: '.' :: dt, expChar c = false := by
        intro c hcm
        rcases List.mem_cons.mp hcm with rfl | hcm
        · exact (digitChar_extra hdh).2.2.2.2
        · rcases List.mem_cons.mp hcm with rfl | hcm
          · decide
          · exact (digitChar_extra (hdt c hcm)).2.2.2.2
      rw [parseDecCore_exp hm,
        show (dh :: '.' :: dt : List Char) = [dh] ++ '.' :: dt from rfl,
        parseMantissa_dot (Or.inl (by simp))
          (by
            intro c hcm
            rw [List.mem_singleton] at hcm
            exact hcm ▸ hdh) hdt, hev]
      refine ⟨_, rfl, ?_⟩
      have hceq : ((natOfDigits ([dh] ++ dt) : ℕ) : ℤ) = ((d.c.natAbs : ℕ) : ℤ) := by
        exact_mod_cast hval
      rw [Dec.toRat_eq, Dec.toRat_eq]
      dsimp only
      rw [hceq]
      congr 2
      simp only [List.length_cons]
      push_cast
      ring
  · next hsci =>
    simp only [plainNotation]
    split
    · next hepos =>
      -- plain notation, nonnegative exponent: `ds` followed by zeros
      have hchars : ∀ c ∈ (dh :: dt) ++ List.replicate d.e.toNat '0',
          DigitChar c := by
        intro c hcm
        rcases List.mem_append.mp hcm with hcm | hcm
        · exact hdig c hcm
        · rw [List.eq_of_mem_replicate hcm]
          exact digitChar_zero
      refine ⟨⟨dh, _, by rw [List.cons_append], hdh⟩, ?_⟩
      rw [parseDecCore_no_exp fun c hcm => (digitChar_extra (hchars c hcm)).2.2.2.2,
        parseMantissa_digits (by simp) hchars]
      refine ⟨_, rfl, ?_⟩
      rw [natOfDigits_append, natOfDigits_replicate_zero, hval,
        List.length_replicate]
      rw [Dec.toRat_eq, Dec.toRat_eq]
      push_cast
      rw [← zpow_natCast (10 : ℚ) d.e.toNat, Int.toNat_of_nonneg hepos]
      ring
    · next heneg =>
      split
      · next hmlt =>
        -- plain notation, fraction shorter than the digit list
        obtain ⟨k, hk⟩ : ∃ k, (dh :: dt).length - (-d.e).toNat = k + 1 :=
          Nat.exists_eq_succ_of_ne_zero (by omega)
        have htake : ∀ c ∈ (dh :: dt).take ((dh :: dt).length - (-d.e).toNat),
            DigitChar c := fun c hcm => hdig c (List.take_subset _ _ hcm)
        have hdrop : ∀ c ∈ (dh :: dt).drop ((dh :: dt).length - (-d.e).toNat),
            DigitChar c := fun c hcm => hdig c (List.drop_subset _ _ hcm)
        refine ⟨⟨dh, _, by rw [hk, List.take_succ_cons, List.cons_append], hdh⟩, ?_⟩
        have hchars : ∀ c ∈ (dh :: dt).take ((dh :: dt).length - (-d.e).toNat) ++
            '.' :: (dh :: dt).drop ((dh :: dt).length - (-d.e).toNat),
            expChar c = false := by
          intro c hcm
          rcases List.mem_append.mp hcm with hcm | hcm
          · exact (digitChar_extra (htake c hcm)).2.2.2.2
          · rcases List.mem_cons.mp hcm with rfl | hcm
            · decide
            · exact (digitChar_extra (hdrop c hcm)).2.2.2.2
        rw [parseDecCore_no_exp hchars,
          parseMantissa_dot (Or.inr (by
            intro hnil
            have := congrArg List.length hnil
            rw [List.length_drop] at this
            simp only [List.length_nil] at this
            omega)) htake hdrop]
        refine ⟨_, rfl, ?_⟩
        congr 1
        rw [Dec.mk.injEq]
        constructor
        · rw [List.take_append_drop, hval]
        · rw [List.length_drop]
          omega
      · next hmge =>
        -- plain notation, leading zeros after the point
        have hfp : ∀ c ∈ List.replicate ((-d.e).toNat - (dh :: dt).length) '0' ++
            (dh :: dt), DigitChar c := by
          intro c hcm
          rcases List.mem_append.mp hcm with hcm | hcm
          · rw [List.eq_of_mem_replicate hcm]
            exact digitChar_zero
          · exact hdig c hcm
        refine ⟨⟨'0', _, rfl, digitChar_zero⟩, ?_⟩
        have hchars : ∀ c ∈ '0' :: '.' :: (List.replicate ((-d.e).toNat -
            (dh :: dt).length) '0' ++ (dh :: dt)), expChar c = false := by
          intro c hcm
          rcases List.mem_cons.mp hcm with rfl | hcm
          · decide
          · rcases List.mem_cons.mp hcm with rfl | hcm
            · decide
            · exact (digitChar_extra (hfp c hcm)).2.2.2.2
        have hmant := @parseMantissa_dot ['0']
          (List.replicate ((-d.e).toNat - (dh :: dt).length) '0' ++ (dh :: dt))
          (Or.inl (by simp))
          (by
            intro c hcm
            rw [List.mem_singleton] at hcm
            rw [hcm]; exact digitChar_zero) hfp
        rw [List.cons_append, List.cons_append, parseDecCore_no_exp hchars]
        rw [List.singleton_append] at hmant
        rw [hmant]
        refine ⟨_, rfl, ?_⟩
        congr 1
        rw [Dec.mk.injEq]
        constructor
        · rw [natOfDigits_append, natOfDigits_append, natOfDigits_replicate_zero,
            hval]
          have h0 : natOfDigits ['0'] = 0 := by decide
          rw [h0]
          push_cast
          ring
        · rw [List.length_append, List.length_replicate]
          omega

theorem Dec.toRat_neg_c (x e : ℤ) : Dec.toRat ⟨-x, e⟩ = -(Dec.toRat ⟨x, e⟩) := by
  rw [Dec.toRat_eq, Dec.toRat_eq]
  push_cast
  ring

/-- Dispatch of the top-level parser on a list that starts with a digit-like
character: none of the special literals nor the sign branch applies. -/
theorem parseBigNumList_not_dash {b0 : Char} {rest : List Char}
    (h1 : b0 ≠ 'I') (h2 : b0 ≠ '-') (h3 : b0 ≠ 'N') :
    parseBigNumList (b0 :: rest)
      = (parseDecCore (b0 :: rest)).map fun x => .fin (Dec.norm x) := by
  rw [parseBigNumList]
  case x =>
    intro t h
    injection h with hh _
    exact h2 hh
  rw [if_neg ?hInf, if_neg ?hNegInf, if_neg ?hNaN]
  case hInf =>
    intro h
    injection h with hh _
    exact h1 hh
  case hNegInf =>
    intro h
    injection h with hh _
    exact h2 hh
  case hNaN =>
    intro h
    injection h with hh _
    exact h3 hh

/-- Dispatch of the top-level parser on a minus sign followed by anything
other than the `Infinity` literal. -/
theorem parseBigNumList_dash {t : List Char} (hI : t ≠ "Infinity".data) :
    parseBigNumList ('-' :: t)
      = (parseDecCore t).map fun x =>
          if x.c = 0 then .negZero else .fin (Dec.norm ⟨-x.c, x.e⟩) := by
  rw [parseBigNumList]
  rw [if_neg ?hInf, if_neg ?hNegInf, if_neg ?hNaN]
  case hInf =>
    intro h
    injection h with hh _
    exact absurd hh (by decide)
  case hNegInf =>
    intro h
    injection h with _ hh
    exact hI hh
  case hNaN =>
    intro h
    injection h with hh _
    exact absurd hh (by decide)

/-- Rendering a canonical decimal float and parsing it back through the
plain grammar recovers exactly the same decimal float. -/
theorem parseBigNumList_toString {d : Dec} (hd : NormP d) :
    parseBigNumList d.toString.data = some (.fin d) := by
  by_cases hc : d.c = 0
  · have he : d.e = 0 := by
      rcases hd with ⟨_, he⟩ | hten
      · exact he
      · exact absurd (hc ▸ dvd_zero (10 : ℤ)) hten
    have hd0 : d = ⟨0, 0⟩ := by cases d; simp_all
    rw [hd0]
    decide
  · obtain ⟨⟨b0, rest, hbody, hb0⟩, b, hparse, hbval⟩ := parseDecCore_decBody d hc
    have hb0I : b0 ≠ 'I' := (digitChar_extra hb0).1
    have hb0dash : b0 ≠ '-' := (digitChar_not_special hb0).2.2.1
    rw [Dec.toString, if_neg hc]
    by_cases hneg : d.c < 0
    · rw [if_pos hneg]
      show parseBigNumList ('-' :: decBody d) = _
      rw [parseBigNumList_dash (by
        intro h
        rw [hbody] at h
        injection h with hh _
        exact hb0I hh), hparse]
      have hbc : b.c ≠ 0 := by
        intro h0
        apply hc
        have hb0v : Dec.toRat b = 0 := (Dec.toRat_eq_zero_iff b).mpr h0
        rw [hbval, Dec.toRat_eq_zero_iff] at hb0v
        have hb1 : ((d.c.natAbs : ℕ) : ℤ) = 0 := hb0v
        omega
      show some (if b.c = 0 then BigNum.negZero
        else BigNum.fin (Dec.norm ⟨-b.c, b.e⟩)) = some (BigNum.fin d)
      rw [if_neg hbc]
      have hv : Dec.toRat ⟨-b.c, b.e⟩ = d.toRat := by
        rw [Dec.toRat_neg_c, hbval]
        calc -(Dec.toRat ⟨(d.c.natAbs : ℤ), d.e⟩)
            = Dec.toRat ⟨-(d.c.natAbs : ℤ), d.e⟩ := by rw [Dec.toRat_neg_c]
          _ = d.toRat := by rw [show (-((d.c.natAbs : ℕ) : ℤ)) = d.c by omega]
      rw [norm_eq_of_val hd hv]
    · rw [if_neg hneg]
      show parseBigNumList (decBody d) = _
      rw [hbody, parseBigNumList_not_dash hb0I hb0dash (digitChar_extra hb0).2.1,
        ← hbody, hparse]
      show some (BigNum.fin (Dec.norm b)) = some (BigNum.fin d)
      have hv : b.toRat = d.toRat := by
        rw [hbval]
        rw [show ((d.c.natAbs : ℕ) : ℤ) = d.c by omega]
      rw [norm_eq_of_val hd hv]

/-- A string the plain grammar accepts takes the constructor's fast path. -/
theorem parseBigNum_of_list {s : String} {v : BigNum}
    (h : parseBigNumList s.data = some v) : parseBigNum s = some v := by
  rw [parseBigNum]
  show bigNumCtor (7 + 1) s.data none = some v
  rw [bigNumCtor, h]

/-- Rendering a canonical decimal float and parsing it back recovers exactly
the same decimal float. -/
theorem parseBigNum_toString {d : Dec} (hd : NormP d) :
    parseBigNum d.toString = some (.fin d) :=
  parseBigNum_of_list (parseBigNumList_toString hd)

/-! ## Values produced by the parser are canonical -/

theorem parseBigNumList_normP {l : List Char} {d : Dec}
    (h : parseBigNumList l = some (.fin d)) : NormP d := by
  rw [parseBigNumList.eq_def] at h
  split at h
  · exact absurd h (by simp)
  · split at h
    · exact absurd h (by simp)
    · split at h
      · exact absurd h (by simp)
      · split at h
        · next t =>
          rw [Option.map_eq_some'] at h
          obtain ⟨x, _, hfx⟩ := h
          split at hfx
          · exact absurd hfx (by simp)
          · injection hfx with hfx
            exact hfx ▸ normP_norm _
        · rw [Option.map_eq_some'] at h
          obtain ⟨x, _, hfx⟩ := h
          injection hfx with hfx
          exact hfx ▸ normP_norm _

theorem parseBaseListCore_normP {b : ℕ} {neg : Bool} {t : List Char} {d : Dec}
    (h : parseBaseListCore b neg t = some (.fin d)) : NormP d := by
  rw [parseBaseListCore.eq_def] at h
  split at h
  · split at h
    · dsimp only at h
      split at h
      · exact absurd h (by simp)
      · injection h with h
        injection h with h
        exact h ▸ normP_norm _
    · exact absurd h (by simp)
  · split at h
    · dsimp only at h
      split at h
      · exact absurd h (by simp)
      · injection h with h
        injection h with h
        exact h ▸ normP_norm _
    · exact absurd h (by simp)

theorem parseBaseList_normP {b : ℕ} {l : List Char} {d : Dec}
    (h : parseBaseList b l = some (.fin d)) : NormP d := by
  rw [parseBaseList.eq_def] at h
  split at h
  · exact parseBaseListCore_normP h
  · exact parseBaseListCore_normP h

/-- A finished `parseNumeric` pass never produces a finite nonzero decimal
directly: those only arise from the grammar paths. -/
theorem parseNumericStep_done_not_fin {s : List Char} {b : Option ℕ}
    {r : Option BigNum} {d : Dec}
    (h : parseNumericStep s b = .done r) : r ≠ some (.fin d) := by
  rw [parseNumericStep.eq_def] at h
  dsimp only at h
  split at h
  · injection h with h
    rw [← h]
    simp
  · split at h
    · injection h with h
      rw [← h]
      simp
    · split at h
      · injection h with h
        rw [← h]
        simp
      · split at h
        · exact absurd h (by simp)
        · injection h with h
          rw [← h]
          simp

theorem bigNumCtor_normP {fuel : ℕ} {l : List Char} {b : Option ℕ} {d : Dec}
    (h : bigNumCtor fuel l b = some (.fin d)) : NormP d := by
  induction fuel generalizing l b with
  | zero =>
    cases b with
    | none =>
      rw [bigNumCtor] at h
      exact absurd h (by simp)
    | some bb =>
      rw [bigNumCtor] at h
      exact absurd h (by simp)
  | succ n ih =>
    cases b with
    | none =>
      rw [bigNumCtor] at h
      split at h
      · next v heq =>
        injection h with h
        subst h
        exact parseBigNumList_normP heq
      · split at h
        · next hstep =>
          exact absurd h (parseNumericStep_done_not_fin hstep)
        · exact ih h
    | some bb =>
      rw [bigNumCtor] at h
      split at h
      · next v heq =>
        injection h with h
        subst h
        exact parseBaseList_normP heq
      · split at h
        · next hstep =>
          exact absurd h (parseNumericStep_done_not_fin hstep)
        · exact ih h

theorem parseBigNum_normP {s : String} {d : Dec}
    (h : parseBigNum s = some (.fin d)) : NormP d :=
  bigNumCtor_normP h

/-! ## Bridges between the BigNumber operations and rational values -/

theorem maxInt64Dec_toRat : maxInt64Dec.toRat = ((MAX_INT64 : ℤ) : ℚ) := by
  rw [maxInt64Dec, Dec.toRat_eq]
  norm_num

theorem Dec.toRat_mul_int (x : Dec) (k : ℤ) :
    (Dec.norm ⟨x.c * k, x.e⟩).toRat = x.toRat * (k : ℚ) := by
  rw [Dec.toRat_norm, Dec.toRat_eq, Dec.toRat_eq]
  push_cast
  ring

theorem den_one_iff (r : ℚ) : r.den = 1 ↔ ∃ z : ℤ, (z : ℚ) = r := by
  constructor
  · intro h
    exact ⟨r.num, (Rat.den_eq_one_iff r).mp h⟩
  · rintro ⟨z, rfl⟩
    exact Rat.den_intCast z

theorem toRat_mul_ten_pow7 (d : Dec) :
    d.toRat * 10 ^ 7 = (d.c : ℚ) * 10 ^ (d.e + 7) := by
  rw [Dec.toRat_eq, mul_assoc]
  congr 1
  rw [show ((10 : ℚ) ^ (7 : ℕ)) = (10 : ℚ) ^ ((7 : ℕ) : ℤ) from (zpow_natCast 10 7).symm,
    ← zpow_add₀ (by norm_num : (10 : ℚ) ≠ 0)]
  norm_num

/-- For a canonical decimal float, having at most 7 stored fraction digits is
the same as `value × 10^7` being an integer. -/
theorem dp_le_iff {d : Dec} (hd : NormP d) :
    ((if d.e < 0 then (-d.e).toNat else 0) ≤ 7) ↔ (d.toRat * 10 ^ 7).den = 1 := by
  rcases hd with ⟨hc, he⟩ | hten
  · have h0 : d.toRat = 0 := (Dec.toRat_eq_zero_iff d).mpr hc
    rw [h0, he]
    norm_num
  · by_cases hneg : d.e < 0
    · rw [if_pos hneg]
      rw [den_one_iff, toRat_mul_ten_pow7]
      constructor
      · intro hle
        refine ⟨d.c * 10 ^ (d.e + 7).toNat, ?_⟩
        push_cast
        rw [← zpow_natCast (10 : ℚ) (d.e + 7).toNat,
          Int.toNat_of_nonneg (by omega : (0 : ℤ) ≤ d.e + 7)]
      · rintro ⟨z, hz⟩
        by_contra hgt
        push_neg at hgt
        obtain ⟨m, hm⟩ : ∃ m, (-(d.e + 7)).toNat = m + 1 :=
          Nat.exists_eq_succ_of_ne_zero (by omega)
        have key : (z : ℚ) * 10 ^ ((-(d.e + 7)).toNat : ℕ) = (d.c : ℚ) := by
          rw [hz, mul_assoc, ← zpow_natCast (10 : ℚ) (-(d.e + 7)).toNat,
            Int.toNat_of_nonneg (by omega : (0 : ℤ) ≤ -(d.e + 7)),
            ← zpow_add₀ (by norm_num : (10 : ℚ) ≠ 0)]
          have hsum : d.e + 7 + -(d.e + 7) = 0 := by ring
          rw [hsum, zpow_zero, mul_one]
        have keyZ : z * 10 ^ ((-(d.e + 7)).toNat : ℕ) = d.c := by
          exact_mod_cast key
        exact hten ⟨z * 10 ^ m, by rw [← keyZ, hm, pow_succ]; ring⟩
    · rw [if_neg hneg]
      have : (d.toRat * 10 ^ 7).den = 1 := by
        rw [den_one_iff, toRat_mul_ten_pow7]
        refine ⟨d.c * 10 ^ (d.e + 7).toNat, ?_⟩
        push_cast
        rw [← zpow_natCast (10 : ℚ) (d.e + 7).toNat,
          Int.toNat_of_nonneg (by omega : (0 : ℤ) ≤ d.e + 7)]
      simp [this]

/-- Multiplying a finite decimal by a positive integer never flips the
stored sign, so the product is an ordinary finite decimal. -/
theorem times_fin_pos {k : ℤ} (hk : 0 < k) (d : Dec) :
    BigNum.times (.fin d) k = .fin (Dec.norm ⟨d.c * k, d.e⟩) := by
  rw [BigNum.times]
  rw [if_neg]
  rintro ⟨h0, hs⟩
  have hc : d.c = 0 := by
    rcases mul_eq_zero.mp h0 with h | h
    · exact h
    · omega
  rw [hc] at hs
  have hcon : (0 : ℤ) < 0 := hs.mpr hk.le
  omega

/-! ## Characterisation of `isValidAmount` on strings -/

theorem isValidAmount_fin (s : String) (z : Bool) (x : Dec)
    (hp : parseBigNum s = some (.fin x)) :
    Operation.isValidAmount (.str s) z =
      (if (!z) = true ∧ BigNum.isZero (.fin x) = true then false
       else if BigNum.isNegative (.fin x) = true then false
       else if (BigNum.times (.fin x) ONE).greaterThan (.fin maxInt64Dec) = true then false
       else if (BigNum.decimalPlaces (.fin x)).getD 0 > 7 then false
       else if (!BigNum.isFinite (.fin x)) = true then false
       else if BigNum.isNan (.fin x) = true then false
       else true) := by
  rw [Operation.isValidAmount, hp]

theorem isValidAmount_str_iff (s : String) (z : Bool) :
    Operation.isValidAmount (.str s) z = true ↔
      ∃ d, parseBigNum s = some (.fin d) ∧ 0 ≤ d.toRat ∧
        d.toRat * 10 ^ 7 ≤ ((MAX_INT64 : ℤ) : ℚ) ∧ (d.toRat * 10 ^ 7).den = 1 ∧
        (d.toRat ≠ 0 ∨ z = true) := by
  cases hp : parseBigNum s with
  | none =>
    rw [Operation.isValidAmount, hp]
    simp
  | some b =>
    cases b with
    | nan =>
      rw [Operation.isValidAmount, hp]
      simp [BigNum.isZero, BigNum.isNegative, BigNum.times,
        BigNum.greaterThan, BigNum.decimalPlaces, BigNum.isFinite, BigNum.isNan]
    | posInf =>
      rw [Operation.isValidAmount, hp]
      have h1 : BigNum.times .posInf ONE = .posInf := by
        rw [BigNum.times]
        norm_num [ONE]
      simp [h1, BigNum.isZero, BigNum.isNegative, BigNum.greaterThan]
    | negInf =>
      rw [Operation.isValidAmount, hp]
      simp [BigNum.isZero, BigNum.isNegative]
    | negZero =>
      rw [Operation.isValidAmount, hp]
      cases z <;> simp [BigNum.isZero, BigNum.isNegative]
    | fin x =>
      have hNx : NormP x := parseBigNum_normP hp
      have hgt : (BigNum.greaterThan (BigNum.times (.fin x) ONE)
          (.fin maxInt64Dec) = true) ↔ ((MAX_INT64 : ℤ) : ℚ) < x.toRat * 10 ^ 7 := by
        rw [times_fin_pos (by norm_num [ONE]) x]
        show Dec.gtD (Dec.norm ⟨x.c * ONE, x.e⟩) maxInt64Dec = true ↔ _
        rw [Dec.gtD_iff, maxInt64Dec_toRat, Dec.toRat_mul_int]
        norm_num [ONE]
      have hdp : (((BigNum.decimalPlaces (.fin x)).getD 0 > 7))
          ↔ ¬ (x.toRat * 10 ^ 7).den = 1 := by
        show ((some (if x.e < 0 then (-x.e).toNat else 0)).getD 0 > 7) ↔ _
        rw [Option.getD_some, ← dp_le_iff hNx]
        omega
      rw [isValidAmount_fin s z x hp]
      constructor
      · intro hv
        split at hv
        · exact absurd hv (by simp)
        · next h1 =>
          split at hv
          · exact absurd hv (by simp)
          · next h2 =>
            split at hv
            · exact absurd hv (by simp)
            · next h3 =>
              split at hv
              · exact absurd hv (by simp)
              · next h4 =>
                refine ⟨x, rfl, ?_, ?_, ?_, ?_⟩
                · rw [← not_lt]
                  intro hcon
                  exact h2 (by
                    simpa [BigNum.isNegative] using (Dec.toRat_neg_iff x).mp hcon)
                · exact not_lt.mp fun hcon => h3 (hgt.mpr hcon)
                · by_contra hcon
                  exact h4 (hdp.mpr hcon)
                · by_cases hzt : z = true
                  · exact Or.inr hzt
                  · refine Or.inl ?_
                    rw [ne_eq, Dec.toRat_eq_zero_iff]
                    intro hc0
                    exact h1 ⟨by simp [hzt], by simp [BigNum.isZero, hc0]⟩
      · rintro ⟨d, hpd, h0, hle, hden, hz⟩
        injection hpd with hpd
        injection hpd with hpd
        subst hpd
        rw [if_neg ?c1, if_neg ?c2, if_neg ?c3, if_neg ?c4, if_neg ?c5, if_neg ?c6]
        case c1 =>
          rintro ⟨hz', hzero⟩
          rw [Bool.not_eq_true'] at hz'
          have hc0 : x.c = 0 := by simpa [BigNum.isZero] using hzero
          rcases hz with hne | hzt
          · exact hne ((Dec.toRat_eq_zero_iff x).mpr hc0)
          · rw [hzt] at hz'
            exact absurd hz' (by simp)
        case c2 =>
          intro hneg
          have : x.c < 0 := by simpa [BigNum.isNegative] using hneg
          exact absurd h0 (not_le.mpr ((Dec.toRat_neg_iff x).mpr this))
        case c3 =>
          intro hcon
          exact absurd hle (not_le.mpr (hgt.mp hcon))
        case c4 =>
          intro hcon
          exact (hdp.mp hcon) hden
        case c5 => simp [BigNum.isFinite]
        case c6 => simp [BigNum.isNan]

/-! ## Amount scaling and unscaling -/

theorem normP_den_one_nonneg_e {y : Dec} (hy : NormP y) (hden : y.toRat.den = 1) :
    0 ≤ y.e := by
  rcases hy with ⟨_, he⟩ | hten
  · omega
  · by_contra hneg
    push_neg at hneg
    rw [den_one_iff] at hden
    obtain ⟨z, hz⟩ := hden
    rw [Dec.toRat_eq] at hz
    obtain ⟨m, hm⟩ : ∃ m, (-y.e).toNat = m + 1 :=
      Nat.exists_eq_succ_of_ne_zero (by omega)
    have key : (z : ℚ) * 10 ^ ((-y.e).toNat : ℕ) = (y.c : ℚ) := by
      rw [hz, mul_assoc, ← zpow_natCast (10 : ℚ) (-y.e).toNat,
        Int.toNat_of_nonneg (by omega : (0 : ℤ) ≤ -y.e),
        ← zpow_add₀ (by norm_num : (10 : ℚ) ≠ 0)]
      have hsum : y.e + -y.e = 0 := by ring
      rw [hsum, zpow_zero, mul_one]
    have keyZ : z * 10 ^ ((-y.e).toNat : ℕ) = y.c := by exact_mod_cast key
    exact hten ⟨z * 10 ^ m, by rw [← keyZ, hm, pow_succ]; ring⟩

theorem toXDRAmount_fin {s : String} {x : Dec}
    (hp : parseBigNum s = some (.fin x)) :
    Operation.toXDRAmount (.str s) =
      (if 0 ≤ (Dec.norm ⟨x.c * ONE, x.e⟩).e then
        some ((Dec.norm ⟨x.c * ONE, x.e⟩).c *
          (10 : ℤ) ^ (Dec.norm ⟨x.c * ONE, x.e⟩).e.toNat)
      else none) := by
  rw [Operation.toXDRAmount, hp]

theorem ONE_cast : ((ONE : ℤ) : ℚ) = 10 ^ 7 := by norm_num [ONE]

/-- On every amount that passes validation, `_toXDRAmount` returns exactly
the value scaled by `10^7`, an integer. -/
theorem toXDRAmount_valid {s : String} {z : Bool} {d : Dec}
    (hp : parseBigNum s = some (.fin d))
    (hval : Operation.isValidAmount (.str s) z = true) :
    ∃ m : ℤ, Operation.toXDRAmount (.str s) = some m ∧
      (m : ℚ) = d.toRat * 10 ^ 7 := by
  obtain ⟨d', hp', _, _, hden, _⟩ := (isValidAmount_str_iff s z).mp hval
  rw [hp] at hp'
  injection hp' with hp'
  injection hp' with hp'
  subst hp'
  have hyval : (Dec.norm ⟨d.c * ONE, d.e⟩).toRat = d.toRat * 10 ^ 7 := by
    rw [Dec.toRat_mul_int, ONE_cast]
  have hyden : (Dec.norm ⟨d.c * ONE, d.e⟩).toRat.den = 1 := by
    rw [hyval]
    exact hden
  have hye : 0 ≤ (Dec.norm ⟨d.c * ONE, d.e⟩).e :=
    normP_den_one_nonneg_e (normP_norm _) hyden
  refine ⟨_, by rw [toXDRAmount_fin hp, if_pos hye], ?_⟩
  rw [← hyval, Dec.toRat, if_pos hye]

theorem decValue_eq_fin {s : String} {x : Dec}
    (hp : parseBigNum s = some (.fin x)) :
    Operation.decValue s = some x.toRat := by
  rw [Operation.decValue, hp]

/-- `_fromXDRAmount` renders a string denoting exactly the scaled integer
divided back by `10^7`. -/
theorem decValue_fromXDRAmount (m : ℤ) :
    Operation.decValue (Operation.fromXDRAmount m) = some ((m : ℚ) / 10 ^ 7) := by
  rw [Operation.fromXDRAmount,
    decValue_eq_fin (parseBigNum_toString (normP_norm ⟨m, -7⟩)),
    Dec.toRat_norm, Dec.toRat_eq]
  rw [show ((-7 : ℤ)) = -((7 : ℕ) : ℤ) by norm_num, zpow_neg, zpow_natCast,
    div_eq_mul_inv]

/-- Validation, scaling, unscaling: the decoded amount string denotes the
same value the caller supplied. -/
theorem amount_roundtrip {v : JSVal} {z : Bool}
    (hval : Operation.isValidAmount v z = true) :
    ∃ (s : String) (d : Dec) (m : ℤ),
      v = .str s ∧ parseBigNum s = some (.fin d) ∧
      Operation.toXDRAmount v = some m ∧ (m : ℚ) = d.toRat * 10 ^ 7 ∧
      Operation.decValue (Operation.fromXDRAmount m) = some d.toRat ∧
      jsDecValue v = some d.toRat := by
  cases v with
  | str s =>
    obtain ⟨d, hp, _, _, _, _⟩ := (isValidAmount_str_iff s z).mp hval
    obtain ⟨m, hm, hmv⟩ := toXDRAmount_valid hp hval
    refine ⟨s, d, m, rfl, hp, hm, hmv, ?_, ?_⟩
    · rw [decValue_fromXDRAmount, hmv]
      field_simp
    · rw [jsDecValue, decValue_eq_fin hp]
  | num x => simp [Operation.isValidAmount] at hval
  | bignum b => simp [Operation.isValidAmount] at hval
  | jsNull => simp [Operation.isValidAmount] at hval
  | undefined => simp [Operation.isValidAmount] at hval
  | boolean b => simp [Operation.isValidAmount] at hval

theorem isValidAmount_not_str {v : JSVal} (h : v.isString = false) (z : Bool) :
    Operation.isValidAmount v z = false := by
  cases v with
  | str s => simp [JSVal.isString] at h
  | num x => simp [Operation.isValidAmount]
  | bignum b => simp [Operation.isValidAmount]
  | jsNull => simp [Operation.isValidAmount]
  | undefined => simp [Operation.isValidAmount]
  | boolean b => simp [Operation.isValidAmount]

/-! ## The source-account option -/

theorem setSourceAccount_eq (source : Option String) :
    Operation.setSourceAccount source = .ok (srcId source) := by
  cases source with
  | none => rfl
  | some s =>
    rw [Operation.setSourceAccount, srcId]
    by_cases h : s = ""
    · simp [h]
    · simp [h, Account.isValidAccountId]

theorem srcId_eq_map {source : Option String} (h : source ≠ some "") :
    srcId source = source.map keypairXdrAccountId := by
  cases source with
  | none => rfl
  | some s =>
    have hs : s ≠ "" := fun hh => h (by rw [hh])
    simp [srcId, hs]

/-! ## Prices: positivity -/

theorem best_r_pos {b : BigNum} {n d : ℤ} (h : best_r b = .ok (n, d)) :
    0 < n ∧ 0 < d := by
  rw [best_r.eq_def] at h
  cases b with
  | fin x =>
    dsimp only at h
    split at h
    · exact absurd h (by simp)
    · split at h
      · exact absurd h (by simp)
      · next hpos =>
        injection h with h
        push_neg at hpos
        have h1 := congrArg Prod.fst h
        have h2 := congrArg Prod.snd h
        dsimp only at h1 h2
        omega
  | nan => exact absurd h (by simp)
  | posInf => exact absurd h (by simp)
  | negInf => exact absurd h (by simp)
  | negZero => exact absurd h (by simp)

theorem except_pure_bind {ε α β : Type} (a : α) (f : α → Except ε β) :
    (do let y ← (pure a : Except ε α); f y) = f a := rfl

theorem except_ok_bind {ε α β : Type} (a : α) (f : α → Except ε β) :
    (do let y ← (Except.ok a : Except ε α); f y) = f a := rfl

theorem except_error_bind {ε α β : Type} (e : ε) (f : α → Except ε β) :
    (do let y ← (Except.error e : Except ε α); f y) = Except.error e := rfl

theorem toXDRPrice_ok_pos {p : PriceInput} {x : XdrPrice}
    (h : Operation.toXDRPrice p = .ok x) : 0 < x.n ∧ 0 < x.d := by
  rw [Operation.toXDRPrice.eq_def] at h
  cases p with
  | pair n d =>
    dsimp only at h
    split at h
    · next hnz =>
      rw [except_pure_bind] at h
      split at h
      · exact absurd h (by simp)
      · next hsign =>
        injection h with h
        subst h
        push_neg at hsign
        constructor
        · rcases lt_or_eq_of_le hsign.1 with h1 | h1
          · exact h1
          · exact absurd h1.symm hnz.1
        · rcases lt_or_eq_of_le hsign.2 with h1 | h1
          · exact h1
          · exact absurd h1.symm hnz.2
    · exact absurd h (by simp [except_error_bind])
  | dec s =>
    dsimp only at h
    split at h
    · next b hb =>
      rcases hbr : best_r b with e | r
      · rw [hbr, except_error_bind] at h
        exact absurd h (by simp)
      · obtain ⟨n0, d0⟩ := r
        rw [hbr, except_ok_bind, except_pure_bind] at h
        have hpos := best_r_pos hbr
        split at h
        · exact absurd h (by simp)
        · injection h with h
          subst h
          exact hpos
    · exact absurd h (by simp [except_error_bind])

/-! # Claim theorems -/

/-- **C3.** On every string that passes `isValidAmount`, `_toXDRAmount`
returns the exact value scaled by 10^7 as an integer (e.g. `"10.1234567"`
scales to `101234567`), and `_fromXDRAmount` unscales it back to a string
denoting exactly the original value. -/
theorem c3_amount_scaling :
    (∀ (s : String) (z : Bool) (d : Dec),
      Operation.isValidAmount (.str s) z = true →
      parseBigNum s = some (.fin d) →
      ∃ m : ℤ, Operation.toXDRAmount (.str s) = some m ∧
        (m : ℚ) = d.toRat * 10 ^ 7 ∧
        Operation.decValue (Operation.fromXDRAmount m) = some d.toRat)
    ∧ Operation.toXDRAmount (.str "10.1234567") = some 101234567 := by
  constructor
  · intro s z d hval hp
    obtain ⟨m, hm, hmv⟩ := toXDRAmount_valid hp hval
    refine ⟨m, hm, hmv, ?_⟩
    rw [decValue_fromXDRAmount, hmv]
    field_simp
  · decide

/-- Witness for C3: the scaling theorem applied at `"10.1234567"`. -/
theorem c3_amount_scaling_witness :
    ∃ m : ℤ, Operation.toXDRAmount (.str "10.1234567") = some m ∧
      (m : ℚ) = (Dec.mk 101234567 (-7)).toRat * 10 ^ 7 ∧
      Operation.decValue (Operation.fromXDRAmount m)
        = some (Dec.mk 101234567 (-7)).toRat :=
  c3_amount_scaling.1 "10.1234567" false ⟨101234567, -7⟩ (by decide) (by decide)

/-- **C4.** `_toXDRPrice` only ever returns a price whose numerator and
denominator are both strictly positive; in particular the explicit pair
`{n: -1, d: 2}` fails with «price must be positive». -/
theorem c4_price_positive :
    (∀ (p : PriceInput) (x : XdrPrice),
      Operation.toXDRPrice p = .ok x → 0 < x.n ∧ 0 < x.d)
    ∧ Operation.toXDRPrice (.pair (-1) 2) = .error "price must be positive" :=
  ⟨fun _ _ h => toXDRPrice_ok_pos h, by rfl⟩

/-- Witness for C4: positivity extracted from the accepted pair `1/2`. -/
theorem c4_price_positive_witness :
    0 < (XdrPrice.mk 1 2).n ∧ 0 < (XdrPrice.mk 1 2).d :=
  c4_price_positive.1 (.pair 1 2) ⟨1, 2⟩ (by rfl)

/-- **C8.** Decoding an operation whose variant tag is none of the ten known
ones raises «Unknown operation»; no record is returned. -/
theorem c8_unknown_operation :
    ∀ (source : Option XdrAccountId) (tag : String),
      Operation.operationToObject ⟨source, .unknownOp tag⟩
        = .error "Unknown operation" := by
  intro source tag
  rfl

/-- **C10.** A non-string amount (number, BigNumber, null, …) never passes
`isValidAmount`, for either setting of `allowZero`, so every constructor
that takes an amount rejects it. -/
theorem c10_nonstring_amounts :
    (∀ (v : JSVal) (z : Bool), v.isString = false →
      Operation.isValidAmount v z = false)
    ∧ (∀ (opts : CreateAccountOpts), opts.startingBalance.isString = false →
        ∀ op, Operation.createAccount opts ≠ .ok op)
    ∧ (∀ (opts : PaymentOpts), opts.amount.isString = false →
        ∀ op, Operation.payment opts ≠ .ok op)
    ∧ (∀ (opts : PathPaymentOpts), opts.sendMax.isString = false →
        ∀ op, Operation.pathPayment opts ≠ .ok op)
    ∧ (∀ (opts : ChangeTrustOpts) (v : JSVal), opts.limit = some v →
        v.isString = false → ∀ op, Operation.changeTrust opts ≠ .ok op)
    ∧ (∀ (opts : ManageOfferOpts), opts.amount.isString = false →
        ∀ op, Operation.manageOffer opts ≠ .ok op)
    ∧ (∀ (opts : CreatePassiveOfferOpts), opts.amount.isString = false →
        ∀ op, Operation.createPassiveOffer opts ≠ .ok op) := by
  refine ⟨fun v z h => isValidAmount_not_str h z, ?_, ?_, ?_, ?_, ?_, ?_⟩
  · intro opts h op hok
    rw [Operation.createAccount] at hok
    split at hok
    · simp at hok
    · split at hok
      · simp at hok
      · next h2 =>
        exact absurd (not_not.mp h2) (by simp [isValidAmount_not_str h])
  · intro opts h op hok
    rw [Operation.payment] at hok
    split at hok
    · simp at hok
    · split at hok
      · simp at hok
      · split at hok
        · simp at hok
        · next h2 =>
          exact absurd (not_not.mp h2) (by simp [isValidAmount_not_str h])
  · intro opts h op hok
    rw [Operation.pathPayment.eq_def] at hok
    split at hok
    · simp at hok
    · split at hok
      · simp at hok
      · next h2 =>
        exact absurd (not_not.mp h2) (by simp [isValidAmount_not_str h])
  · intro opts v hlim h op hok
    rw [Operation.changeTrust] at hok
    split at hok
    · simp at hok
    · next h2 =>
      refine h2 ⟨by simp [hlim], ?_⟩
      rw [hlim]
      simp [isValidAmount_not_str h]
  · intro opts h op hok
    rw [Operation.manageOffer] at hok
    split at hok
    · simp at hok
    · next h2 =>
      exact absurd (not_not.mp h2) (by simp [isValidAmount_not_str h])
  · intro opts h op hok
    rw [Operation.createPassiveOffer] at hok
    split at hok
    · simp at hok
    · next h2 =>
      exact absurd (not_not.mp h2) (by simp [isValidAmount_not_str h])

/-- Witness for C10: a numeric (non-string) amount value is rejected. -/
theorem c10_nonstring_amounts_witness :
    Operation.isValidAmount (.num ⟨1, 0⟩) false = false :=
  c10_nonstring_amounts.1 (.num ⟨1, 0⟩) false rfl

/-! ## Asset-code padding (`allowTrust`) -/

theorem dropWhile_replicate_append (p : Char → Bool) (k : ℕ) (a : Char)
    (hp : p a = true) (l : List Char) :
    (List.replicate k a ++ l).dropWhile p = l.dropWhile p := by
  induction k with
  | zero => simp
  | succ k ih =>
    rw [List.replicate_succ, List.cons_append, List.dropWhile_cons, if_pos hp, ih]

theorem trimEndNul_padEnd (s : String) (k : ℕ) (h : endsInNul s = false) :
    trimEndNul (padEnd s k '\x00') = s := by
  rw [trimEndNul, padEnd]
  show String.mk ((((s.data ++ List.replicate (k - s.data.length) '\x00').reverse).dropWhile
    fun c => c = '\x00').reverse) = s
  rw [List.reverse_append, List.reverse_replicate,
    dropWhile_replicate_append _ _ _ (by decide)]
  have hsame : s.data.reverse.dropWhile (fun c => decide (c = '\x00'))
      = s.data.reverse := by
    cases hrev : s.data.reverse with
    | nil => rfl
    | cons c t =>
      have hlast : s.data.getLast? = some c := by
        rw [← List.head?_reverse, hrev]
        rfl
      have h' : (decide (c = '\x00')) = false := by
        have h2 := h
        rw [endsInNul.eq_def, hlast] at h2
        exact h2
      simp [List.dropWhile_cons, h']
  rw [hsame, List.reverse_reverse]

theorem allowTrust_ok {opts : AllowTrustOpts} {op : XdrOperation}
    (h : Operation.allowTrust opts = .ok op) :
    Account.isValidAccountId opts.trustor = true ∧
    opts.assetCode.length ≤ 12 ∧
    op = ⟨srcId opts.source, .allowTrust ⟨keypairXdrAccountId opts.trustor,
      (if opts.assetCode.length ≤ 4 then
        .assetTypeCreditAlphanum4 (padEnd opts.assetCode 4 '\x00')
      else
        .assetTypeCreditAlphanum12 (padEnd opts.assetCode 12 '\x00')),
      opts.authorize⟩⟩ := by
  rw [Operation.allowTrust] at h
  split at h
  · simp at h
  · next htr =>
    rw [not_not] at htr
    refine ⟨htr, ?_⟩
    by_cases h4 : opts.assetCode.length ≤ 4
    · rw [if_pos h4, setSourceAccount_eq] at h
      dsimp only at h
      rw [except_ok_bind] at h
      injection h with h
      subst h
      exact ⟨by omega, by rw [if_pos h4]⟩
    · rw [if_neg h4] at h
      by_cases h12 : opts.assetCode.length ≤ 12
      · rw [if_pos h12, setSourceAccount_eq] at h
        dsimp only at h
        rw [except_ok_bind] at h
        injection h with h
        subst h
        exact ⟨h12, by rw [if_neg h4]⟩
      · rw [if_neg h12] at h
        simp at h

/-- **C5 counterexample.** An asset code that itself ends in a NUL character
is accepted by `allowTrust` (length 2 ≤ 4) but the decoder's NUL stripping
cannot recover it: the original code string is not recovered, refuting the
claim as stated. -/
theorem c5_asset_code_counterexample :
    ∃ op, Operation.allowTrust ⟨"GTRUSTOR", "A\x00", true, none⟩ = .ok op ∧
      Operation.operationToObject op
        = .ok (.allowTrust none "GTRUSTOR" "A" true) ∧
      ("A" : String) ≠ "A\x00" :=
  ⟨_, rfl, rfl, by decide⟩

/-- **C5 (amended).** `allowTrust` encodes a code of length ≤ 4 as a 4-byte
NUL-padded code, a code of length 5–12 as a 12-byte NUL-padded code, and
fails with an error beyond 12 characters; decoding strips trailing NUL
bytes, so the original code string is recovered provided the code does not
itself end in a NUL character. -/
theorem c5_asset_code_padding :
    (∀ opts : AllowTrustOpts, Account.isValidAccountId opts.trustor = true →
      (opts.assetCode.length ≤ 4 →
        Operation.allowTrust opts = .ok ⟨srcId opts.source,
          .allowTrust ⟨keypairXdrAccountId opts.trustor,
            .assetTypeCreditAlphanum4 (padEnd opts.assetCode 4 '\x00'),
            opts.authorize⟩⟩)
      ∧ (4 < opts.assetCode.length → opts.assetCode.length ≤ 12 →
        Operation.allowTrust opts = .ok ⟨srcId opts.source,
          .allowTrust ⟨keypairXdrAccountId opts.trustor,
            .assetTypeCreditAlphanum12 (padEnd opts.assetCode 12 '\x00'),
            opts.authorize⟩⟩)
      ∧ (12 < opts.assetCode.length →
        Operation.allowTrust opts = .error "Asset code must be 12 characters at max."))
    ∧ (∀ (opts : AllowTrustOpts) (op : XdrOperation),
        Operation.allowTrust opts = .ok op → endsInNul opts.assetCode = false →
        ∃ src, Operation.operationToObject op
          = .ok (.allowTrust src opts.trustor opts.assetCode opts.authorize)) := by
  constructor
  · intro opts htr
    refine ⟨?_, ?_, ?_⟩
    · intro h4
      rw [Operation.allowTrust, if_neg (by simp [htr]), if_pos h4,
        setSourceAccount_eq]
      rfl
    · intro h4 h12
      rw [Operation.allowTrust, if_neg (by simp [htr]), if_neg (by omega),
        if_pos h12, setSourceAccount_eq]
      rfl
    · intro h12
      rw [Operation.allowTrust, if_neg (by simp [htr]), if_neg (by omega),
        if_neg (by omega)]
  · intro opts op hok hnul
    obtain ⟨htr, hlen, hop⟩ := allowTrust_ok hok
    subst hop
    refine ⟨(srcId opts.source).map accountIdtoAddress, ?_⟩
    by_cases h4 : opts.assetCode.length ≤ 4
    · rw [if_pos h4, Operation.operationToObject]
      dsimp only
      rw [trimEndNul_padEnd _ _ hnul]
      rfl
    · rw [if_neg h4, Operation.operationToObject]
      dsimp only
      rw [trimEndNul_padEnd _ _ hnul]
      rfl

/-- Witness for C5: the amended theorem applied to the code `"USD"`. -/
theorem c5_asset_code_padding_witness :
    Operation.allowTrust ⟨"GTRUSTOR", "USD", true, none⟩
      = .ok ⟨srcId none, .allowTrust ⟨keypairXdrAccountId "GTRUSTOR",
          .assetTypeCreditAlphanum4 (padEnd "USD" 4 '\x00'), true⟩⟩ :=
  (c5_asset_code_padding.1 ⟨"GTRUSTOR", "USD", true, none⟩ (by decide)).1 (by decide)

/-! ## Inversion of the constructors -/

theorem createAccount_ok {opts : CreateAccountOpts} {op : XdrOperation}
    (h : Operation.createAccount opts = .ok op) :
    ∃ m : ℤ, Account.isValidAccountId opts.destination = true ∧
      Operation.isValidAmount opts.startingBalance = true ∧
      Operation.toXDRAmount opts.startingBalance = some m ∧
      op = ⟨srcId opts.source,
        .createAccount ⟨keypairXdrAccountId opts.destination, m⟩⟩ := by
  rw [Operation.createAccount] at h
  split at h
  · simp at h
  · next hdest =>
    split at h
    · simp at h
    · next hamt =>
      rcases ha : Operation.toXDRAmount opts.startingBalance with _ | m
      · rw [ha] at h
        simp at h
      · rw [ha, setSourceAccount_eq] at h
        dsimp only at h
        rw [except_ok_bind] at h
        injection h with h
        exact ⟨m, not_not.mp hdest, not_not.mp hamt, rfl, h.symm⟩

theorem payment_ok {opts : PaymentOpts} {op : XdrOperation}
    (h : Operation.payment opts = .ok op) :
    ∃ (a : Asset) (m : ℤ), Account.isValidAccountId opts.destination = true ∧
      opts.asset = some a ∧
      Operation.isValidAmount opts.amount = true ∧
      Operation.toXDRAmount opts.amount = some m ∧
      op = ⟨srcId opts.source,
        .payment ⟨keypairXdrAccountId opts.destination, a.toXdrObject, m⟩⟩ := by
  rw [Operation.payment] at h
  split at h
  · simp at h
  · next hdest =>
    rcases hasset : opts.asset with _ | a
    · rw [hasset] at h
      simp at h
    · rw [hasset] at h
      dsimp only at h
      split at h
      · simp at h
      · next hamt =>
        rcases ha : Operation.toXDRAmount opts.amount with _ | m
        · rw [ha] at h
          simp at h
        · rw [ha, setSourceAccount_eq] at h
          dsimp only at h
          rw [except_ok_bind] at h
          injection h with h
          exact ⟨a, m, not_not.mp hdest, rfl, not_not.mp hamt, rfl, h.symm⟩

theorem accountMerge_ok {opts : AccountMergeOpts} {op : XdrOperation}
    (h : Operation.accountMerge opts = .ok op) :
    Account.isValidAccountId opts.destination = true ∧
    op = ⟨srcId opts.source, .accountMerge (keypairXdrAccountId opts.destination)⟩ := by
  rw [Operation.accountMerge] at h
  split at h
  · simp at h
  · next hdest =>
    rw [setSourceAccount_eq] at h
    rw [except_ok_bind] at h
    injection h with h
    exact ⟨not_not.mp hdest, h.symm⟩

theorem inflation_ok {opts : InflationOpts} {op : XdrOperation}
    (h : Operation.inflation opts = .ok op) :
    op = ⟨srcId opts.source, .inflation⟩ := by
  rw [Operation.inflation, setSourceAccount_eq] at h
  rw [except_ok_bind] at h
  injection h with h
  exact h.symm

theorem changeTrust_ok {opts : ChangeTrustOpts} {op : XdrOperation}
    (h : Operation.changeTrust opts = .ok op) :
    ∃ limit : ℤ,
      ((jsTruthy opts.limit = true ∧
          Operation.isValidAmount (opts.limit.getD .undefined) true = true ∧
          Operation.toXDRAmount (opts.limit.getD .undefined) = some limit) ∨
        (jsTruthy opts.limit = false ∧ limit = MAX_INT64)) ∧
      op = ⟨srcId opts.source, .changeTrust ⟨opts.asset.toXdrObject, limit⟩⟩ := by
  rw [Operation.changeTrust] at h
  split at h
  · simp at h
  · next hval =>
    by_cases ht : jsTruthy opts.limit
    · rw [if_pos ht] at h
      rcases ha : Operation.toXDRAmount (opts.limit.getD .undefined) with _ | m
      · rw [ha] at h
        simp at h
      · rw [ha, setSourceAccount_eq] at h
        dsimp only at h
        rw [except_ok_bind] at h
        injection h with h
        refine ⟨m, Or.inl ⟨ht, ?_, rfl⟩, h.symm⟩
        by_contra hcon
        refine hval ⟨?_, fun hv => hcon hv⟩
        rcases hsome : opts.limit with _ | v
        · rw [hsome] at ht
          simp [jsTruthy] at ht
        · simp
    · rw [if_neg ht] at h
      rw [setSourceAccount_eq] at h
      dsimp only at h
      rw [except_ok_bind] at h
      injection h with h
      exact ⟨MAX_INT64, Or.inr ⟨by simpa using ht, rfl⟩, h.symm⟩

theorem pathPayment_ok {opts : PathPaymentOpts} {op : XdrOperation}
    (h : Operation.pathPayment opts = .ok op) :
    ∃ (sa da : Asset) (m1 m2 : ℤ),
      opts.sendAsset = some sa ∧ opts.destAsset = some da ∧
      Account.isValidAccountId opts.destination = true ∧
      Operation.isValidAmount opts.sendMax = true ∧
      Operation.isValidAmount opts.destAmount = true ∧
      Operation.toXDRAmount opts.sendMax = some m1 ∧
      Operation.toXDRAmount opts.destAmount = some m2 ∧
      op = ⟨srcId opts.source, .pathPayment
        ⟨sa.toXdrObject, m1, keypairXdrAccountId opts.destination, da.toXdrObject,
          m2, (opts.path.getD []).map Asset.toXdrObject⟩⟩ := by
  rw [Operation.pathPayment.eq_def] at h
  rcases hsa : opts.sendAsset with _ | sa
  · rw [hsa] at h
    simp at h
  · rw [hsa] at h
    dsimp only at h
    split at h
    · simp at h
    · next hsm =>
      split at h
      · simp at h
      · next hdest =>
        rcases hda : opts.destAsset with _ | da
        · rw [hda] at h
          simp at h
        · rw [hda] at h
          dsimp only at h
          split at h
          · simp at h
          · next hdm =>
            rcases ha1 : Operation.toXDRAmount opts.sendMax with _ | m1
            · rw [ha1] at h
              rcases ha2 : Operation.toXDRAmount opts.destAmount with _ | m2 <;>
                rw [ha2] at h <;> simp at h
            · rcases ha2 : Operation.toXDRAmount opts.destAmount with _ | m2
              · rw [ha1, ha2] at h
                simp at h
              · rw [ha1, ha2, setSourceAccount_eq] at h
                dsimp only at h
                rw [except_ok_bind] at h
                injection h with h
                exact ⟨sa, da, m1, m2, rfl, rfl, not_not.mp hdest,
                  not_not.mp hsm, not_not.mp hdm, rfl, rfl, h.symm⟩

theorem manageOffer_ok {opts : ManageOfferOpts} {op : XdrOperation}
    (h : Operation.manageOffer opts = .ok op) :
    ∃ (m : ℤ) (price : XdrPrice) (oid : ℕ),
      Operation.isValidAmount opts.amount true = true ∧
      Operation.toXDRAmount opts.amount = some m ∧
      (∃ pin, opts.price = some pin ∧ Operation.toXDRPrice pin = .ok price) ∧
      ((opts.offerId = none ∧ oid = 0) ∨
        (∃ v str, opts.offerId = some v ∧ JSVal.toStr v = some str ∧
          unsignedHyperFromString str = some oid)) ∧
      op = ⟨srcId opts.source, .manageOffer
        ⟨opts.selling.toXdrObject, opts.buying.toXdrObject, m, price, oid⟩⟩ := by
  rw [Operation.manageOffer] at h
  split at h
  · simp at h
  · next hamt =>
    rcases ha : Operation.toXDRAmount opts.amount with _ | m
    · rw [ha] at h
      simp at h
    · rw [ha] at h
      dsimp only at h
      rcases hpin : opts.price with _ | pin
      · rw [hpin] at h
        simp at h
      · rw [hpin] at h
        dsimp only at h
        rcases hpx : Operation.toXDRPrice pin with e | price
        · rw [hpx, except_error_bind] at h
          simp at h
        · rw [hpx, except_ok_bind] at h
          rcases hoid : opts.offerId with _ | v
          · rw [hoid] at h
            dsimp only at h
            rcases hu : unsignedHyperFromString "0" with _ | u
            · rw [hu] at h
              simp at h
            · rw [hu] at h
              dsimp only at h
              rw [setSourceAccount_eq, except_ok_bind] at h
              injection h with h
              have hu0 : u = 0 := by
                have : unsignedHyperFromString "0" = some 0 := by decide
                rw [this] at hu
                injection hu with hu
                exact hu.symm
              subst hu0
              exact ⟨m, price, 0, not_not.mp hamt, rfl, ⟨pin, rfl, hpx⟩,
                Or.inl ⟨rfl, rfl⟩, h.symm⟩
          · rw [hoid] at h
            dsimp only at h
            rcases hstr : JSVal.toStr v with _ | str
            · rw [hstr] at h
              simp at h
            · rw [hstr] at h
              dsimp only at h
              rcases hu : unsignedHyperFromString str with _ | u
              · rw [hu] at h
                simp at h
              · rw [hu] at h
                dsimp only at h
                rw [setSourceAccount_eq, except_ok_bind] at h
                injection h with h
                exact ⟨m, price, u, not_not.mp hamt, rfl, ⟨pin, rfl, hpx⟩,
                  Or.inr ⟨v, str, rfl, hstr, hu⟩, h.symm⟩

theorem createPassiveOffer_ok {opts : CreatePassiveOfferOpts} {op : XdrOperation}
    (h : Operation.createPassiveOffer opts = .ok op) :
    ∃ (m : ℤ) (price : XdrPrice),
      Operation.isValidAmount opts.amount = true ∧
      Operation.toXDRAmount opts.amount = some m ∧
      (∃ pin, opts.price = some pin ∧ Operation.toXDRPrice pin = .ok price) ∧
      op = ⟨srcId opts.source, .createPassiveOffer
        ⟨opts.selling.toXdrObject, opts.buying.toXdrObject, m, price⟩⟩ := by
  rw [Operation.createPassiveOffer] at h
  split at h
  · simp at h
  · next hamt =>
    rcases ha : Operation.toXDRAmount opts.amount with _ | m
    · rw [ha] at h
      simp at h
    · rw [ha] at h
      dsimp only at h
      rcases hpin : opts.price with _ | pin
      · rw [hpin] at h
        simp at h
      · rw [hpin] at h
        dsimp only at h
        rcases hpx : Operation.toXDRPrice pin with e | price
        · rw [hpx, except_error_bind] at h
          simp at h
        · rw [hpx, except_ok_bind, setSourceAccount_eq, except_ok_bind] at h
          injection h with h
          exact ⟨m, price, not_not.mp hamt, rfl, ⟨pin, rfl, hpx⟩, h.symm⟩

/-- **C6.** `changeTrust` encodes an omitted `limit` as the maximum signed
64-bit value `9223372036854775807`; a supplied limit must pass amount
validation with zero allowed; and the limit string `"0"` (trust-line
deletion) is accepted and encoded as limit `0`. -/
theorem c6_changetrust_limit :
    (∀ (opts : ChangeTrustOpts) (op : XdrOperation), opts.limit = none →
        Operation.changeTrust opts = .ok op →
        op = ⟨srcId opts.source,
          .changeTrust ⟨opts.asset.toXdrObject, 9223372036854775807⟩⟩) ∧
    (∀ (opts : ChangeTrustOpts) (v : JSVal) (op : XdrOperation),
        opts.limit = some v → Operation.changeTrust opts = .ok op →
        Operation.isValidAmount v true = true) ∧
    (∀ opts : ChangeTrustOpts, opts.limit = some (.str "0") →
        Operation.changeTrust opts =
          .ok ⟨srcId opts.source, .changeTrust ⟨opts.asset.toXdrObject, 0⟩⟩) := by
  refine ⟨?_, ?_, ?_⟩
  · intro opts op hnone h
    obtain ⟨limit, hdisj, hop⟩ := changeTrust_ok h
    rcases hdisj with ⟨ht, _, _⟩ | ⟨_, rfl⟩
    · rw [hnone] at ht
      simp [jsTruthy] at ht
    · rw [hop]
      rfl
  · intro opts v op hsome h
    rw [Operation.changeTrust] at h
    split at h
    · simp at h
    · next hval =>
      by_contra hcon
      refine hval ⟨?_, ?_⟩
      · rw [hsome]
        rfl
      · rw [hsome]
        exact hcon
  · intro opts h0
    rw [Operation.changeTrust, h0]
    rw [if_neg (by decide)]
    dsimp only
    rw [if_pos (by decide)]
    rw [show Operation.toXDRAmount ((some (JSVal.str "0")).getD JSVal.undefined) =
      some 0 from by decide]
    dsimp only
    rw [setSourceAccount_eq, except_ok_bind]

theorem c6_changetrust_limit_witness :
    ((⟨srcId none, .changeTrust ⟨(Asset.mk "XLM" "GXLM").toXdrObject,
        9223372036854775807⟩⟩ : XdrOperation) =
      ⟨srcId (none : Option String),
        .changeTrust ⟨(Asset.mk "XLM" "GXLM").toXdrObject, 9223372036854775807⟩⟩) ∧
    Operation.isValidAmount (.str "1") true = true ∧
    Operation.changeTrust ⟨Asset.mk "XLM" "GXLM", some (.str "0"), none⟩ =
      .ok ⟨srcId (none : Option String),
        .changeTrust ⟨(Asset.mk "XLM" "GXLM").toXdrObject, 0⟩⟩ :=
  ⟨c6_changetrust_limit.1 ⟨Asset.mk "XLM" "GXLM", none, none⟩ _ rfl rfl,
    c6_changetrust_limit.2.1 ⟨Asset.mk "XLM" "GXLM", some (.str "1"), none⟩ (.str "1")
      ⟨srcId (none : Option String),
        .changeTrust ⟨(Asset.mk "XLM" "GXLM").toXdrObject, 10000000⟩⟩ rfl rfl,
    c6_changetrust_limit.2.2 ⟨Asset.mk "XLM" "GXLM", some (.str "0"), none⟩ rfl⟩

theorem outOfRange255_eq_false_iff (o : Option ℤ) :
    Operation.outOfRange255 o = false ↔ InRange255 o := by
  cases o with
  | none =>
    simp [Operation.outOfRange255, InRange255]
  | some w =>
    simp only [Operation.outOfRange255, InRange255, decide_eq_false_iff_not]
    constructor
    · intro h x hx
      rw [Option.mem_def, Option.some_inj] at hx
      subst hx
      omega
    · intro h
      have hb := h w (Option.mem_def.mpr rfl)
      omega

theorem inRange255_of_not {o : Option ℤ} (h : ¬ Operation.outOfRange255 o = true) :
    InRange255 o :=
  (outOfRange255_eq_false_iff o).mp (by rwa [Bool.not_eq_true] at h)

theorem setOptionsTail_ranges {opts : SetOptionsOpts} {infl : Option XdrAccountId}
    {op : XdrOperation}
    (h : (if Operation.outOfRange255 opts.masterWeight then
        (.error "masterWeight value must be between 0 and 255" :
          Except String XdrOperation)
      else if Operation.outOfRange255 opts.lowThreshold then
        .error "lowThreshold value must be between 0 and 255"
      else if Operation.outOfRange255 opts.medThreshold then
        .error "medThreshold value must be between 0 and 255"
      else if Operation.outOfRange255 opts.highThreshold then
        .error "highThreshold value must be between 0 and 255"
      else
        let homeDomain : Except String (Option String) :=
          match opts.homeDomain with
          | some (.str s) => .ok (some s)
          | some _ => .error "homeDomain argument must be of type String"
          | none => .ok none
        match homeDomain with
        | .error e => .error e
        | .ok homeDomain => do
          let signer : Option Signer ←
            match opts.signer with
            | some sg =>
              if ¬ Account.isValidAccountId sg.address then
                .error "signer.address is invalid"
              else if sg.weight < 0 ∨ 255 < sg.weight then
                .error "signer.weight value must be between 0 and 255"
              else .ok (some ⟨keypairXdrAccountId sg.address, sg.weight⟩)
            | none => .ok none
          let src ← Operation.setSourceAccount opts.source
          .ok ⟨src, .setOption
            ⟨infl, opts.clearFlags, opts.setFlags, opts.masterWeight,
             opts.lowThreshold, opts.medThreshold, opts.highThreshold, signer,
             homeDomain⟩⟩) = .ok op) :
    InRange255 opts.masterWeight ∧ InRange255 opts.lowThreshold ∧
    InRange255 opts.medThreshold ∧ InRange255 opts.highThreshold ∧
    ∀ sg ∈ opts.signer, 0 ≤ sg.weight ∧ sg.weight ≤ 255 := by
  split at h
  · exact absurd h (by simp)
  · next hmw =>
    split at h
    · exact absurd h (by simp)
    · next hlw =>
      split at h
      · exact absurd h (by simp)
      · next hmd =>
        split at h
        · exact absurd h (by simp)
        · next hhi =>
          refine ⟨inRange255_of_not hmw, inRange255_of_not hlw,
            inRange255_of_not hmd, inRange255_of_not hhi, ?_⟩
          intro sg hmem
          rw [Option.mem_def] at hmem
          rw [hmem] at h
          dsimp only at h
          split at h
          · exact absurd h (by simp)
          · split at h
            · rw [except_error_bind] at h
              exact absurd h (by simp)
            · next hw =>
              split at h
              · rw [except_error_bind] at h
                exact absurd h (by simp)
              · next hw2 =>
                exact ⟨by omega, by omega⟩

theorem setOptions_ranges {opts : SetOptionsOpts} {op : XdrOperation}
    (h : Operation.setOptions opts = .ok op) :
    InRange255 opts.masterWeight ∧ InRange255 opts.lowThreshold ∧
    InRange255 opts.medThreshold ∧ InRange255 opts.highThreshold ∧
    ∀ sg ∈ opts.signer, 0 ≤ sg.weight ∧ sg.weight ≤ 255 := by
  rw [Operation.setOptions] at h
  rcases hio : opts.inflationDest with _ | s
  · rw [hio] at h
    dsimp only at h
    rw [except_ok_bind] at h
    exact setOptionsTail_ranges h
  · rw [hio] at h
    dsimp only at h
    split at h
    · split at h
      · rw [except_error_bind] at h
        exact absurd h (by simp)
      · rw [except_ok_bind] at h
        exact setOptionsTail_ranges h
    · rw [except_ok_bind] at h
      exact setOptionsTail_ranges h

theorem setOptionsAfterInfl_ok (opts : SetOptionsOpts) (infl : Option XdrAccountId)
    (h1 : InRange255 opts.masterWeight) (h2 : InRange255 opts.lowThreshold)
    (h3 : InRange255 opts.medThreshold) (h4 : InRange255 opts.highThreshold)
    (hhd : opts.homeDomain = none ∨ ∃ s, opts.homeDomain = some (.str s))
    (hsg : ∀ sg ∈ opts.signer,
      Account.isValidAccountId sg.address = true ∧ 0 ≤ sg.weight ∧ sg.weight ≤ 255) :
    ∃ op,
      (if Operation.outOfRange255 opts.masterWeight then
        (.error "masterWeight value must be between 0 and 255" :
          Except String XdrOperation)
      else if Operation.outOfRange255 opts.lowThreshold then
        .error "lowThreshold value must be between 0 and 255"
      else if Operation.outOfRange255 opts.medThreshold then
        .error "medThreshold value must be between 0 and 255"
      else if Operation.outOfRange255 opts.highThreshold then
        .error "highThreshold value must be between 0 and 255"
      else
        let homeDomain : Except String (Option String) :=
          match opts.homeDomain with
          | some (.str s) => .ok (some s)
          | some _ => .error "homeDomain argument must be of type String"
          | none => .ok none
        match homeDomain with
        | .error e => .error e
        | .ok homeDomain => do
          let signer : Option Signer ←
            match opts.signer with
            | some sg =>
              if ¬ Account.isValidAccountId sg.address then
                .error "signer.address is invalid"
              else if sg.weight < 0 ∨ 255 < sg.weight then
                .error "signer.weight value must be between 0 and 255"
              else .ok (some ⟨keypairXdrAccountId sg.address, sg.weight⟩)
            | none => .ok none
          let src ← Operation.setSourceAccount opts.source
          .ok ⟨src, .setOption
            ⟨infl, opts.clearFlags, opts.setFlags, opts.masterWeight,
             opts.lowThreshold, opts.medThreshold, opts.highThreshold, signer,
             homeDomain⟩⟩) = .ok op := by
  have hw1 : ¬ (Operation.outOfRange255 opts.masterWeight = true) := by
    rw [Bool.not_eq_true]
    exact (outOfRange255_eq_false_iff _).mpr h1
  have hw2 : ¬ (Operation.outOfRange255 opts.lowThreshold = true) := by
    rw [Bool.not_eq_true]
    exact (outOfRange255_eq_false_iff _).mpr h2
  have hw3 : ¬ (Operation.outOfRange255 opts.medThreshold = true) := by
    rw [Bool.not_eq_true]
    exact (outOfRange255_eq_false_iff _).mpr h3
  have hw4 : ¬ (Operation.outOfRange255 opts.highThreshold = true) := by
    rw [Bool.not_eq_true]
    exact (outOfRange255_eq_false_iff _).mpr h4
  rw [if_neg hw1, if_neg hw2, if_neg hw3, if_neg hw4]
  rcases hhd with hnone | ⟨s, hs⟩
  · rw [hnone]
    dsimp only
    rcases hsgo : opts.signer with _ | so
    · dsimp only
      rw [except_ok_bind, setSourceAccount_eq, except_ok_bind]
      exact ⟨_, rfl⟩
    · obtain ⟨hva, hlo, hhi⟩ := hsg so (Option.mem_def.mpr hsgo)
      dsimp only
      rw [if_neg (by simp [hva]), if_neg (by omega), except_ok_bind,
        setSourceAccount_eq, except_ok_bind]
      exact ⟨_, rfl⟩
  · rw [hs]
    dsimp only
    rcases hsgo : opts.signer with _ | so
    · dsimp only
      rw [except_ok_bind, setSourceAccount_eq, except_ok_bind]
      exact ⟨_, rfl⟩
    · obtain ⟨hva, hlo, hhi⟩ := hsg so (Option.mem_def.mpr hsgo)
      dsimp only
      rw [if_neg (by simp [hva]), if_neg (by omega), except_ok_bind,
        setSourceAccount_eq, except_ok_bind]
      exact ⟨_, rfl⟩

theorem setOptions_complete (opts : SetOptionsOpts) (hother : SetOptionsOtherOk opts)
    (h1 : InRange255 opts.masterWeight) (h2 : InRange255 opts.lowThreshold)
    (h3 : InRange255 opts.medThreshold) (h4 : InRange255 opts.highThreshold)
    (h5 : ∀ sg ∈ opts.signer, 0 ≤ sg.weight ∧ sg.weight ≤ 255) :
    ∃ op, Operation.setOptions opts = .ok op := by
  obtain ⟨hinfl, hsgv, hhdv⟩ := hother
  have hhd : opts.homeDomain = none ∨ ∃ s, opts.homeDomain = some (.str s) := by
    rcases hh : opts.homeDomain with _ | v
    · exact Or.inl rfl
    · rw [hh] at hhdv
      cases v with
      | str s => exact Or.inr ⟨s, rfl⟩
      | num d => simp [JSVal.isString] at hhdv
      | bignum b => simp [JSVal.isString] at hhdv
      | jsNull => simp [JSVal.isString] at hhdv
      | undefined => simp [JSVal.isString] at hhdv
      | boolean b => simp [JSVal.isString] at hhdv
  have hsg : ∀ sg ∈ opts.signer,
      Account.isValidAccountId sg.address = true ∧ 0 ≤ sg.weight ∧ sg.weight ≤ 255 := by
    intro sg hmem
    obtain ⟨hb1, hb2⟩ := h5 sg hmem
    rw [Option.mem_def] at hmem
    rw [hmem] at hsgv
    exact ⟨hsgv, hb1, hb2⟩
  rw [Operation.setOptions]
  rcases hio : opts.inflationDest with _ | s
  · dsimp only
    rw [except_ok_bind]
    exact setOptionsAfterInfl_ok opts none h1 h2 h3 h4 hhd hsg
  · rw [hio] at hinfl
    dsimp only at hinfl
    dsimp only
    by_cases hs : s = ""
    · rw [if_neg (by simpa using hs), except_ok_bind]
      exact setOptionsAfterInfl_ok opts none h1 h2 h3 h4 hhd hsg
    · have hv : Account.isValidAccountId s = true := hinfl.resolve_left hs
      rw [if_pos hs, if_neg (by simp [hv]), except_ok_bind]
      exact setOptionsAfterInfl_ok opts (some (keypairXdrAccountId s)) h1 h2 h3 h4 hhd hsg

/-- **C7.** `setOptions` rejects any present `masterWeight`, `lowThreshold`,
`medThreshold`, `highThreshold` or `signer.weight` outside `[0, 255]`
(success forces every present one into range) and accepts every in-range
assignment once the remaining options are well-formed; in particular
`masterWeight = 256` is rejected with the range error and
`masterWeight = 255` is accepted. -/
theorem c7_setoptions_range :
    (∀ (opts : SetOptionsOpts) (op : XdrOperation),
        Operation.setOptions opts = .ok op →
        InRange255 opts.masterWeight ∧ InRange255 opts.lowThreshold ∧
        InRange255 opts.medThreshold ∧ InRange255 opts.highThreshold ∧
        ∀ sg ∈ opts.signer, 0 ≤ sg.weight ∧ sg.weight ≤ 255) ∧
    (∀ opts : SetOptionsOpts, SetOptionsOtherOk opts →
        InRange255 opts.masterWeight → InRange255 opts.lowThreshold →
        InRange255 opts.medThreshold → InRange255 opts.highThreshold →
        (∀ sg ∈ opts.signer, 0 ≤ sg.weight ∧ sg.weight ≤ 255) →
        ∃ op, Operation.setOptions opts = .ok op) ∧
    Operation.setOptions ⟨none, none, none, some 256, none, none, none, none, none, none⟩ =
      .error "masterWeight value must be between 0 and 255" ∧
    Operation.setOptions ⟨none, none, none, some 255, none, none, none, none, none, none⟩ =
      .ok ⟨none, .setOption ⟨none, none, none, some 255, none, none, none, none, none⟩⟩ :=
  ⟨fun _ _ h => setOptions_ranges h,
    fun opts ho h1 h2 h3 h4 h5 => setOptions_complete opts ho h1 h2 h3 h4 h5,
    rfl, rfl⟩

theorem c7_setoptions_range_witness :
    (InRange255 (some 255) ∧ InRange255 (none : Option ℤ) ∧
      InRange255 (none : Option ℤ) ∧ InRange255 (none : Option ℤ) ∧
      ∀ sg ∈ (none : Option SignerOpts), 0 ≤ sg.weight ∧ sg.weight ≤ 255) ∧
    ∃ op, Operation.setOptions
        ⟨none, none, none, some 255, none, none, none, none, none, none⟩ = .ok op := by
  constructor
  · exact c7_setoptions_range.1
      ⟨none, none, none, some 255, none, none, none, none, none, none⟩
      ⟨none, .setOption ⟨none, none, none, some 255, none, none, none, none, none⟩⟩ rfl
  · exact c7_setoptions_range.2.1
      ⟨none, none, none, some 255, none, none, none, none, none, none⟩
      ⟨trivial, trivial, trivial⟩
      (fun w hw => by rw [Option.mem_def, Option.some_inj] at hw; omega)
      (fun w hw => absurd hw (by simp))
      (fun w hw => absurd hw (by simp))
      (fun w hw => absurd hw (by simp))
      (fun sg hsg => absurd hsg (by simp))

/-- **C9.** `manageOffer` accepts an amount of `"0"` (offer deletion) and
rejects the negative amount `"-1"` with a type error; an absent `offerId`
is encoded as offer id `0` (read from the default string `"0"`), and a
present `offerId` is first converted to its string form and then read as an
unsigned 64-bit integer. -/
theorem c9_manageoffer_zero_offerid :
    (∀ opts : ManageOfferOpts, opts.amount = .str "0" →
        opts.price = some (.pair 1 1) → opts.offerId = none →
        ∃ op, Operation.manageOffer opts = .ok op) ∧
    (∀ opts : ManageOfferOpts, opts.amount = .str "-1" →
        Operation.manageOffer opts =
          .error "amount argument must be of type String and represent a positive number or zero") ∧
    (∀ (opts : ManageOfferOpts) (op : XdrOperation), opts.offerId = none →
        Operation.manageOffer opts = .ok op →
        ∃ (m : ℤ) (price : XdrPrice), op = ⟨srcId opts.source,
          .manageOffer ⟨opts.selling.toXdrObject, opts.buying.toXdrObject, m, price, 0⟩⟩) ∧
    (∀ (opts : ManageOfferOpts) (op : XdrOperation) (v : JSVal) (s : String) (n : ℕ),
        opts.offerId = some v → JSVal.toStr v = some s →
        unsignedHyperFromString s = some n →
        Operation.manageOffer opts = .ok op →
        ∃ (m : ℤ) (price : XdrPrice), op = ⟨srcId opts.source,
          .manageOffer ⟨opts.selling.toXdrObject, opts.buying.toXdrObject, m, price, n⟩⟩) := by
  refine ⟨?_, ?_, ?_, ?_⟩
  · intro opts h0 hp hoid
    rw [Operation.manageOffer, h0, hp, hoid]
    dsimp only
    rw [if_neg (by decide)]
    rw [show Operation.toXDRAmount (JSVal.str "0") = some 0 from by decide]
    dsimp only
    rw [show Operation.toXDRPrice (.pair 1 1) = .ok ⟨1, 1⟩ from rfl,
      except_ok_bind]
    rw [show unsignedHyperFromString "0" = some 0 from by decide]
    dsimp only
    rw [setSourceAccount_eq, except_ok_bind]
    exact ⟨_, rfl⟩
  · intro opts hneg
    rw [Operation.manageOffer, hneg]
    dsimp only
    rw [if_pos (by decide)]
  · intro opts op hnone h
    obtain ⟨m, price, oid, _, _, _, hoid, hop⟩ := manageOffer_ok h
    rcases hoid with ⟨_, rfl⟩ | ⟨v, str, hv, _, _⟩
    · exact ⟨m, price, hop⟩
    · rw [hnone] at hv
      exact absurd hv (by simp)
  · intro opts op v s n hv hs hn h
    obtain ⟨m, price, oid, _, _, _, hoid, hop⟩ := manageOffer_ok h
    rcases hoid with ⟨hnone, _⟩ | ⟨v', s', hv', hs', hn'⟩
    · rw [hv] at hnone
      exact absurd hnone (by simp)
    · rw [hv] at hv'
      injection hv' with hv'
      subst hv'
      rw [hs] at hs'
      injection hs' with hs'
      subst hs'
      rw [hn] at hn'
      injection hn' with hn'
      subst hn'
      exact ⟨m, price, hop⟩

theorem c9_manageoffer_zero_offerid_witness :
    (∃ op, Operation.manageOffer
        ⟨Asset.mk "XLM" "GXLM", Asset.mk "USD" "GUSD", .str "0",
          some (.pair 1 1), none, none⟩ = .ok op) ∧
    Operation.manageOffer
        ⟨Asset.mk "XLM" "GXLM", Asset.mk "USD" "GUSD", .str "-1",
          some (.pair 1 1), none, none⟩ =
      .error "amount argument must be of type String and represent a positive number or zero" ∧
    (∃ (m : ℤ) (price : XdrPrice),
      (⟨srcId (none : Option String), .manageOffer
          ⟨(Asset.mk "XLM" "GXLM").toXdrObject, (Asset.mk "USD" "GUSD").toXdrObject,
            0, ⟨1, 1⟩, 0⟩⟩ : XdrOperation) =
        ⟨srcId (none : Option String), .manageOffer
          ⟨(Asset.mk "XLM" "GXLM").toXdrObject, (Asset.mk "USD" "GUSD").toXdrObject,
            m, price, 0⟩⟩) ∧
    ∃ (m : ℤ) (price : XdrPrice),
      (⟨srcId (none : Option String), .manageOffer
          ⟨(Asset.mk "XLM" "GXLM").toXdrObject, (Asset.mk "USD" "GUSD").toXdrObject,
            10000000, ⟨1, 1⟩, 5⟩⟩ : XdrOperation) =
        ⟨srcId (none : Option String), .manageOffer
          ⟨(Asset.mk "XLM" "GXLM").toXdrObject, (Asset.mk "USD" "GUSD").toXdrObject,
            m, price, 5⟩⟩ :=
  ⟨c9_manageoffer_zero_offerid.1
      ⟨Asset.mk "XLM" "GXLM", Asset.mk "USD" "GUSD", .str "0",
        some (.pair 1 1), none, none⟩ rfl rfl rfl,
    c9_manageoffer_zero_offerid.2.1
      ⟨Asset.mk "XLM" "GXLM", Asset.mk "USD" "GUSD", .str "-1",
        some (.pair 1 1), none, none⟩ rfl,
    c9_manageoffer_zero_offerid.2.2.1
      ⟨Asset.mk "XLM" "GXLM", Asset.mk "USD" "GUSD", .str "0",
        some (.pair 1 1), none, none⟩ _ rfl rfl,
    c9_manageoffer_zero_offerid.2.2.2
      ⟨Asset.mk "XLM" "GXLM", Asset.mk "USD" "GUSD", .str "1",
        some (.pair 1 1), some (.str "5"), none⟩ _ (.str "5") "5" 5 rfl rfl
      (by decide) rfl⟩

theorem accountId_decode (s : String) :
    accountIdtoAddress (keypairXdrAccountId s) = s := rfl

theorem srcId_decode {source : Option String} (h : source ≠ some "") :
    Option.map accountIdtoAddress (srcId source) = source := by
  cases source with
  | none => rfl
  | some s =>
    have hs : ¬ s = "" := fun he => h (by rw [he])
    rw [srcId]
    simp [hs, accountIdtoAddress, keypairXdrAccountId]

theorem asset_decode (a : Asset) : Asset.fromOperation a.toXdrObject = a := rfl

theorem asset_list_decode (l : List Asset) :
    (l.map Asset.toXdrObject).map Asset.fromOperation = l := by
  rw [List.map_map]
  exact List.map_id l

theorem setOptionsTail_ok {opts : SetOptionsOpts} {infl : Option XdrAccountId}
    {op : XdrOperation}
    (h : (if Operation.outOfRange255 opts.masterWeight then
        (.error "masterWeight value must be between 0 and 255" :
          Except String XdrOperation)
      else if Operation.outOfRange255 opts.lowThreshold then
        .error "lowThreshold value must be between 0 and 255"
      else if Operation.outOfRange255 opts.medThreshold then
        .error "medThreshold value must be between 0 and 255"
      else if Operation.outOfRange255 opts.highThreshold then
        .error "highThreshold value must be between 0 and 255"
      else
        let homeDomain : Except String (Option String) :=
          match opts.homeDomain with
          | some (.str s) => .ok (some s)
          | some _ => .error "homeDomain argument must be of type String"
          | none => .ok none
        match homeDomain with
        | .error e => .error e
        | .ok homeDomain => do
          let signer : Option Signer ←
            match opts.signer with
            | some sg =>
              if ¬ Account.isValidAccountId sg.address then
                .error "signer.address is invalid"
              else if sg.weight < 0 ∨ 255 < sg.weight then
                .error "signer.weight value must be between 0 and 255"
              else .ok (some ⟨keypairXdrAccountId sg.address, sg.weight⟩)
            | none => .ok none
          let src ← Operation.setSourceAccount opts.source
          .ok ⟨src, .setOption
            ⟨infl, opts.clearFlags, opts.setFlags, opts.masterWeight,
             opts.lowThreshold, opts.medThreshold, opts.highThreshold, signer,
             homeDomain⟩⟩) = .ok op) :
    ∃ (sgv : Option Signer) (hdv : Option String),
      ((opts.signer = none ∧ sgv = none) ∨
        ∃ so, opts.signer = some so ∧
          sgv = some ⟨keypairXdrAccountId so.address, so.weight⟩) ∧
      hdv = homeDomainString opts.homeDomain ∧
      (opts.homeDomain = none ∨ ∃ s, opts.homeDomain = some (.str s)) ∧
      op = ⟨srcId opts.source, .setOption
        ⟨infl, opts.clearFlags, opts.setFlags, opts.masterWeight,
         opts.lowThreshold, opts.medThreshold, opts.highThreshold, sgv, hdv⟩⟩ := by
  split at h
  · exact absurd h (by simp)
  · split at h
    · exact absurd h (by simp)
    · split at h
      · exact absurd h (by simp)
      · split at h
        · exact absurd h (by simp)
        · rcases hhdo : opts.homeDomain with _ | v
          · rw [hhdo] at h
            dsimp only at h
            rcases hsgo : opts.signer with _ | so
            · rw [hsgo] at h
              dsimp only at h
              rw [except_ok_bind, setSourceAccount_eq, except_ok_bind] at h
              injection h with h
              exact ⟨none, none, Or.inl ⟨rfl, rfl⟩, rfl, Or.inl rfl, h.symm⟩
            · rw [hsgo] at h
              dsimp only at h
              split at h
              · rw [except_error_bind] at h
                exact absurd h (by simp)
              · split at h
                · rw [except_error_bind] at h
                  exact absurd h (by simp)
                · rw [except_ok_bind, setSourceAccount_eq, except_ok_bind] at h
                  injection h with h
                  exact ⟨some ⟨keypairXdrAccountId so.address, so.weight⟩, none,
                    Or.inr ⟨so, rfl, rfl⟩, rfl, Or.inl rfl, h.symm⟩
          · rw [hhdo] at h
            cases v with
            | str s =>
              dsimp only at h
              rcases hsgo : opts.signer with _ | so
              · rw [hsgo] at h
                dsimp only at h
                rw [except_ok_bind, setSourceAccount_eq, except_ok_bind] at h
                injection h with h
                exact ⟨none, some s, Or.inl ⟨rfl, rfl⟩, rfl, Or.inr ⟨s, rfl⟩, h.symm⟩
              · rw [hsgo] at h
                dsimp only at h
                split at h
                · rw [except_error_bind] at h
                  exact absurd h (by simp)
                · split at h
                  · rw [except_error_bind] at h
                    exact absurd h (by simp)
                  · rw [except_ok_bind, setSourceAccount_eq, except_ok_bind] at h
                    injection h with h
                    exact ⟨some ⟨keypairXdrAccountId so.address, so.weight⟩, some s,
                      Or.inr ⟨so, rfl, rfl⟩, rfl, Or.inr ⟨s, rfl⟩, h.symm⟩
            | num d => exact absurd h (by simp)
            | bignum b => exact absurd h (by simp)
            | jsNull => exact absurd h (by simp)
            | undefined => exact absurd h (by simp)
            | boolean b => exact absurd h (by simp)

theorem setOptions_ok {opts : SetOptionsOpts} {op : XdrOperation}
    (h : Operation.setOptions opts = .ok op) :
    ∃ (infl : Option XdrAccountId) (sgv : Option Signer) (hdv : Option String),
      (((opts.inflationDest = none ∨ opts.inflationDest = some "") ∧ infl = none) ∨
        ∃ s, opts.inflationDest = some s ∧ s ≠ "" ∧
          infl = some (keypairXdrAccountId s)) ∧
      ((opts.signer = none ∧ sgv = none) ∨
        ∃ so, opts.signer = some so ∧
          sgv = some ⟨keypairXdrAccountId so.address, so.weight⟩) ∧
      hdv = homeDomainString opts.homeDomain ∧
      (opts.homeDomain = none ∨ ∃ s, opts.homeDomain = some (.str s)) ∧
      op = ⟨srcId opts.source, .setOption
        ⟨infl, opts.clearFlags, opts.setFlags, opts.masterWeight,
         opts.lowThreshold, opts.medThreshold, opts.highThreshold, sgv, hdv⟩⟩ := by
  rw [Operation.setOptions] at h
  rcases hio : opts.inflationDest with _ | s
  · rw [hio] at h
    dsimp only at h
    rw [except_ok_bind] at h
    obtain ⟨sgv, hdv, h1, h2, h3, h4⟩ := setOptionsTail_ok h
    exact ⟨none, sgv, hdv, Or.inl ⟨Or.inl rfl, rfl⟩, h1, h2, h3, h4⟩
  · rw [hio] at h
    dsimp only at h
    split at h
    · next hs =>
      split at h
      · rw [except_error_bind] at h
        exact absurd h (by simp)
      · rw [except_ok_bind] at h
        obtain ⟨sgv, hdv, h1, h2, h3, h4⟩ := setOptionsTail_ok h
        exact ⟨some (keypairXdrAccountId s), sgv, hdv,
          Or.inr ⟨s, rfl, hs, rfl⟩, h1, h2, h3, h4⟩
    · next hs =>
      rw [except_ok_bind] at h
      obtain ⟨sgv, hdv, h1, h2, h3, h4⟩ := setOptionsTail_ok h
      have hse : s = "" := not_not.mp (by simpa using hs)
      exact ⟨none, sgv, hdv, Or.inl ⟨Or.inr (by rw [hse]), rfl⟩, h1, h2, h3, h4⟩

/-- The round trip is not exact on `manageOffer` prices: the encoded ratio
1/3 decodes to the 20-place half-up rendering `"0.33333333333333333333"`,
a string denoting a rational different from 1/3. -/
theorem c1_roundtrip_counterexample :
    Operation.manageOffer
        ⟨Asset.mk "XLM" "GXLM", Asset.mk "USD" "GUSD", .str "1",
          some (.pair 1 3), none, none⟩ =
      .ok ⟨none, .manageOffer ⟨(Asset.mk "XLM" "GXLM").toXdrObject,
        (Asset.mk "USD" "GUSD").toXdrObject, 10000000, ⟨1, 3⟩, 0⟩⟩ ∧
    Operation.operationToObject ⟨none, .manageOffer
        ⟨(Asset.mk "XLM" "GXLM").toXdrObject, (Asset.mk "USD" "GUSD").toXdrObject,
          10000000, ⟨1, 3⟩, 0⟩⟩ =
      .ok (.manageOffer none (Asset.mk "XLM" "GXLM") (Asset.mk "USD" "GUSD")
        "1" "0.33333333333333333333" "0") ∧
    Operation.decValue "0.33333333333333333333" ≠ some ((1 : ℚ) / 3) := by
  refine ⟨rfl, rfl, ?_⟩
  rw [Operation.decValue,
    show parseBigNum "0.33333333333333333333" =
      some (.fin ⟨33333333333333333333, -20⟩) from by decide]
  dsimp only
  intro hcon
  rw [Option.some_inj, Dec.toRat_eq] at hcon
  dsimp only at hcon
  rw [show ((-20 : ℤ)) = -((20 : ℕ) : ℤ) by norm_num, zpow_neg,
    zpow_natCast] at hcon
  norm_num at hcon

/-- **C1 (amended).** Decoding inverts each constructor on the fields the
variant exposes, with these provisos: amount-like fields are recovered
modulo canonical decimal formatting (the decoded string denotes the value
the caller supplied); a `changeTrust` limit the caller omitted decodes to
the rendering of the int64 ceiling and a `manageOffer` `offerId` omitted by
the caller decodes to `"0"`; prices are re-rendered from the encoded
numerator/denominator at 20 decimal places rather than recovered verbatim;
`allowTrust` asset codes are recovered only when not ending in NUL; and an
empty-string `source` or `inflationDest` is dropped. -/
theorem c1_decode_encode :
    (∀ (opts : CreateAccountOpts) (op : XdrOperation), opts.source ≠ some "" →
        Operation.createAccount opts = .ok op →
        ∃ bal, Operation.operationToObject op =
            .ok (.createAccount opts.source opts.destination bal) ∧
          SameDecValue bal opts.startingBalance) ∧
    (∀ (opts : PaymentOpts) (op : XdrOperation), opts.source ≠ some "" →
        Operation.payment opts = .ok op →
        ∃ (a : Asset) (amt : String), opts.asset = some a ∧
          Operation.operationToObject op =
            .ok (.payment opts.source opts.destination a amt) ∧
          SameDecValue amt opts.amount) ∧
    (∀ (opts : PathPaymentOpts) (op : XdrOperation), opts.source ≠ some "" →
        Operation.pathPayment opts = .ok op →
        ∃ (sa da : Asset) (m1 m2 : String),
          opts.sendAsset = some sa ∧ opts.destAsset = some da ∧
          Operation.operationToObject op =
            .ok (.pathPayment opts.source sa m1 opts.destination da m2
              (opts.path.getD [])) ∧
          SameDecValue m1 opts.sendMax ∧ SameDecValue m2 opts.destAmount) ∧
    (∀ (opts : ChangeTrustOpts) (op : XdrOperation), opts.source ≠ some "" →
        Operation.changeTrust opts = .ok op →
        ∃ lim : String,
          Operation.operationToObject op =
            .ok (.changeTrust opts.source opts.asset lim) ∧
          ((jsTruthy opts.limit = true ∧
              SameDecValue lim (opts.limit.getD .undefined)) ∨
            (jsTruthy opts.limit = false ∧
              lim = Operation.fromXDRAmount MAX_INT64))) ∧
    (∀ (opts : AllowTrustOpts) (op : XdrOperation), opts.source ≠ some "" →
        endsInNul opts.assetCode = false →
        Operation.allowTrust opts = .ok op →
        Operation.operationToObject op =
          .ok (.allowTrust opts.source opts.trustor opts.assetCode
            opts.authorize)) ∧
    (∀ (opts : SetOptionsOpts) (op : XdrOperation), opts.source ≠ some "" →
        opts.inflationDest ≠ some "" →
        Operation.setOptions opts = .ok op →
        Operation.operationToObject op =
          .ok (.setOptions opts.source opts.inflationDest opts.clearFlags
            opts.setFlags opts.masterWeight opts.lowThreshold opts.medThreshold
            opts.highThreshold (homeDomainString opts.homeDomain)
            (opts.signer.map fun so => (so.address, so.weight)))) ∧
    (∀ (opts : ManageOfferOpts) (op : XdrOperation), opts.source ≠ some "" →
        Operation.manageOffer opts = .ok op →
        ∃ (amt : String) (price : XdrPrice) (oid : ℕ),
          Operation.operationToObject op =
            .ok (.manageOffer opts.source opts.selling opts.buying amt
              (Operation.fromXDRPrice price) ⟨renderNat oid⟩) ∧
          SameDecValue amt opts.amount ∧
          (∃ pin, opts.price = some pin ∧ Operation.toXDRPrice pin = .ok price) ∧
          ((opts.offerId = none ∧ oid = 0) ∨
            ∃ v s, opts.offerId = some v ∧ JSVal.toStr v = some s ∧
              unsignedHyperFromString s = some oid)) ∧
    (∀ (opts : CreatePassiveOfferOpts) (op : XdrOperation), opts.source ≠ some "" →
        Operation.createPassiveOffer opts = .ok op →
        ∃ (amt : String) (price : XdrPrice),
          Operation.operationToObject op =
            .ok (.createPassiveOffer opts.source opts.selling opts.buying amt
              (Operation.fromXDRPrice price)) ∧
          SameDecValue amt opts.amount ∧
          ∃ pin, opts.price = some pin ∧ Operation.toXDRPrice pin = .ok price) ∧
    (∀ (opts : AccountMergeOpts) (op : XdrOperation), opts.source ≠ some "" →
        Operation.accountMerge opts = .ok op →
        Operation.operationToObject op =
          .ok (.accountMerge opts.source opts.destination)) ∧
    (∀ (opts : InflationOpts) (op : XdrOperation), opts.source ≠ some "" →
        Operation.inflation opts = .ok op →
        Operation.operationToObject op = .ok (.inflation opts.source)) := by
  refine ⟨?_, ?_, ?_, ?_, ?_, ?_, ?_, ?_, ?_, ?_⟩
  · intro opts op hsrc h
    obtain ⟨m, _, hval, hx, hop⟩ := createAccount_ok h
    obtain ⟨s, d, m', _, _, hx', _, hdec, hjs⟩ := amount_roundtrip hval
    rw [hx] at hx'
    injection hx' with hx'
    subst hx'
    refine ⟨Operation.fromXDRAmount m, ?_, d.toRat, hdec, hjs⟩
    rw [hop, Operation.operationToObject.eq_def]
    dsimp only
    rw [srcId_decode hsrc, accountId_decode]
  · intro opts op hsrc h
    obtain ⟨a, m, _, hasset, hval, hx, hop⟩ := payment_ok h
    obtain ⟨s, d, m', _, _, hx', _, hdec, hjs⟩ := amount_roundtrip hval
    rw [hx] at hx'
    injection hx' with hx'
    subst hx'
    refine ⟨a, Operation.fromXDRAmount m, hasset, ?_, d.toRat, hdec, hjs⟩
    rw [hop, Operation.operationToObject.eq_def]
    dsimp only
    rw [srcId_decode hsrc, accountId_decode, asset_decode]
  · intro opts op hsrc h
    obtain ⟨sa, da, m1, m2, hsa, hda, _, hv1, hv2, hx1, hx2, hop⟩ := pathPayment_ok h
    obtain ⟨s1, d1, m1', _, _, hx1', _, hdec1, hjs1⟩ := amount_roundtrip hv1
    rw [hx1] at hx1'
    injection hx1' with hx1'
    subst hx1'
    obtain ⟨s2, d2, m2', _, _, hx2', _, hdec2, hjs2⟩ := amount_roundtrip hv2
    rw [hx2] at hx2'
    injection hx2' with hx2'
    subst hx2'
    refine ⟨sa, da, Operation.fromXDRAmount m1, Operation.fromXDRAmount m2,
      hsa, hda, ?_, ⟨d1.toRat, hdec1, hjs1⟩, ⟨d2.toRat, hdec2, hjs2⟩⟩
    rw [hop, Operation.operationToObject.eq_def]
    dsimp only
    rw [srcId_decode hsrc, accountId_decode, asset_decode sa, asset_decode da,
      asset_list_decode]
  · intro opts op hsrc h
    obtain ⟨limit, hdisj, hop⟩ := changeTrust_ok h
    refine ⟨Operation.fromXDRAmount limit, ?_, ?_⟩
    · rw [hop, Operation.operationToObject.eq_def]
      dsimp only
      rw [srcId_decode hsrc, asset_decode]
    · rcases hdisj with ⟨ht, hval, hx⟩ | ⟨hf, rfl⟩
      · obtain ⟨s, d, m', _, _, hx', _, hdec, hjs⟩ := amount_roundtrip hval
        rw [hx] at hx'
        injection hx' with hx'
        subst hx'
        exact Or.inl ⟨ht, d.toRat, hdec, hjs⟩
      · exact Or.inr ⟨hf, rfl⟩
  · intro opts op hsrc hnul h
    obtain ⟨_, _, hop⟩ := allowTrust_ok h
    rw [hop, Operation.operationToObject.eq_def]
    dsimp only
    by_cases hc : opts.assetCode.length ≤ 4
    · rw [if_pos hc]
      dsimp only
      rw [trimEndNul_padEnd _ _ hnul, srcId_decode hsrc, accountId_decode]
    · rw [if_neg hc]
      dsimp only
      rw [trimEndNul_padEnd _ _ hnul, srcId_decode hsrc, accountId_decode]
  · intro opts op hsrc hid h
    obtain ⟨infl, sgv, hdv, hinfl, hsg, hhdv, _, hop⟩ := setOptions_ok h
    have hinfl_eq : infl.map accountIdtoAddress = opts.inflationDest := by
      rcases hinfl with ⟨hio | hio, rfl⟩ | ⟨s, hio, _, rfl⟩
      · rw [hio]
        rfl
      · exact absurd hio hid
      · rw [hio]
        rfl
    have hsg_eq : sgv.map (fun sg => (accountIdtoAddress sg.pubKey, sg.weight)) =
        opts.signer.map fun so => (so.address, so.weight) := by
      rcases hsg with ⟨hso, rfl⟩ | ⟨so, hso, rfl⟩
      · rw [hso]
        rfl
      · rw [hso]
        rfl
    rw [hop, Operation.operationToObject.eq_def]
    dsimp only
    rw [srcId_decode hsrc, hinfl_eq, hsg_eq, hhdv]
  · intro opts op hsrc h
    obtain ⟨m, price, oid, hval, hx, hpin, hoid, hop⟩ := manageOffer_ok h
    obtain ⟨s, d, m', _, _, hx', _, hdec, hjs⟩ := amount_roundtrip hval
    rw [hx] at hx'
    injection hx' with hx'
    subst hx'
    refine ⟨Operation.fromXDRAmount m, price, oid, ?_,
      ⟨d.toRat, hdec, hjs⟩, hpin, hoid⟩
    rw [hop, Operation.operationToObject.eq_def]
    dsimp only
    rw [srcId_decode hsrc, asset_decode opts.selling, asset_decode opts.buying]
  · intro opts op hsrc h
    obtain ⟨m, price, hval, hx, hpin, hop⟩ := createPassiveOffer_ok h
    obtain ⟨s, d, m', _, _, hx', _, hdec, hjs⟩ := amount_roundtrip hval
    rw [hx] at hx'
    injection hx' with hx'
    subst hx'
    refine ⟨Operation.fromXDRAmount m, price, ?_, ⟨d.toRat, hdec, hjs⟩, hpin⟩
    rw [hop, Operation.operationToObject.eq_def]
    dsimp only
    rw [srcId_decode hsrc, asset_decode opts.selling, asset_decode opts.buying]
  · intro opts op hsrc h
    obtain ⟨_, hop⟩ := accountMerge_ok h
    rw [hop, Operation.operationToObject.eq_def]
    dsimp only
    rw [srcId_decode hsrc, accountId_decode]
  · intro opts op hsrc h
    rw [inflation_ok h, Operation.operationToObject.eq_def]
    dsimp only
    rw [srcId_decode hsrc]

theorem c1_decode_encode_witness :
    ∃ bal, Operation.operationToObject
        ⟨none, .createAccount ⟨keypairXdrAccountId "GDEST", 15000000⟩⟩ =
      .ok (.createAccount none "GDEST" bal) ∧
      SameDecValue bal (.str "1.5") :=
  c1_decode_encode.1 ⟨"GDEST", .str "1.5", none⟩
    ⟨none, .createAccount ⟨keypairXdrAccountId "GDEST", 15000000⟩⟩
    (by decide) rfl

end StellarBase
